import Mathlib

/-!
# Particle simulation (`main.go`): a shallow embedding of `Game.Update`

## Number model

Go `float64` values are modelled by `F64 K`: either a number `fin a` with `a` in an
ordered field `K`, or the single not-a-number value `nan`.  Every finite `float64` is a
rational, so `K = ℚ` contains every finite input of the program and makes the model
executable.  `nan` follows IEEE 754: it propagates through arithmetic, every comparison
with it is false, and it is what `0 / 0` yields.  Infinities are not modelled; no result
below evaluates a division of a non-zero number by zero.

The arithmetic is read in two ways.

* Exact: `+`, `-`, `*`, `/` on `F64 K` are exact on numbers, and `math.Sqrt`,
  `math.Cos`, `math.Sin`, `math.Pi` are parameters (`MathFns`).  This reading is used
  where rounding does not bear on the property: the clamp, the colours and the count,
  the spawn counter, coincident centres, stores that do not move, and concrete runs
  whose intermediate values are computed without rounding being at issue.
* float64: every operation is followed by `round64`, rounding to the nearest binary64
  number with ties to even, and `math.Sqrt` is `sqrt64`, the correctly rounded square
  root (`resolvePairR`, `resolvePair64`, `collisions64`).  This reading is used for the
  collision resolver, where rounding decides whether an equality holds.  Each operation
  is rounded on its own (no fused multiply-add), and overflow to an infinity is not
  modelled; the properties bound every coordinate and velocity by 1024.

Go `int` is modelled by `Int` with explicit two's-complement wrap-around (`wrapInt`, for
the 64-bit `int` of 64-bit platforms) on every addition and subtraction of state
integers.

The constants `gravityX`, `gravityY` and `restitution` are also available as parameters
(`integrateG`, `Game.UpdateG`, `resolvePairE`, `resolvePairR`), so that properties at
other values can be stated; `integrate`, `Game.Update`, `resolvePair` and
`resolvePair64` are the program's instances.

## State model

`Game.Update` reads the mouse, the keyboard and a random source.  These are the fields
of `Input`; the state is passed explicitly.  The slice of particles is a `List`, and the
in-place writes through `&g.particles[i]` are `List.set`.
-/

namespace ParticleSim

/-! ## float64 -/

/-- A `float64`: a number of `K`, or NaN. -/
inductive F64 (K : Type) where
  | fin (a : K)
  | nan
  deriving DecidableEq

namespace F64

variable {K : Type} [LinearOrderedField K]

/-- Float addition `x + y`, exact on numbers; the rounding of the result is applied
separately, by `F64.app`, in the float64 reading. -/
def add : F64 K → F64 K → F64 K
  | fin a, fin b => fin (a + b)
  | _, _ => nan

/-- Float subtraction `x - y`, exact on numbers; the rounding of the result is applied
separately, by `F64.app`, in the float64 reading. -/
def sub : F64 K → F64 K → F64 K
  | fin a, fin b => fin (a - b)
  | _, _ => nan

/-- Float multiplication `x * y`, exact on numbers; the rounding of the result is applied
separately, by `F64.app`, in the float64 reading. -/
def mul : F64 K → F64 K → F64 K
  | fin a, fin b => fin (a * b)
  | _, _ => nan

/-- Float negation `-x`. -/
def neg : F64 K → F64 K
  | fin a => fin (-a)
  | nan => nan

/-- Float division `x / y`.  A zero divisor gives no number: `0 / 0` is NaN in Go.
(For a non-zero numerator Go gives an infinity; the model has the one non-number `nan`.
The program only divides by `math.Sqrt(dx*dx + dy*dy)`.) -/
def div : F64 K → F64 K → F64 K
  | fin a, fin b => if b = 0 then nan else fin (a / b)
  | _, _ => nan

/-- Float comparison `x < y`; false when either side is NaN. -/
def lt : F64 K → F64 K → Bool
  | fin a, fin b => decide (a < b)
  | _, _ => false

/-- Float comparison `x > y`. -/
def gt (x y : F64 K) : Bool := lt y x

/-- The call `math.Sqrt(x)`, given the square root `s` on numbers; NaN for a negative
argument and for NaN. -/
def sqrt (s : K → K) : F64 K → F64 K
  | fin a => if a < 0 then nan else fin (s a)
  | nan => nan

/-- The conversion `float64(n)` of an integer. -/
def ofInt (n : Int) : F64 K := fin (n : K)

instance : Add (F64 K) := ⟨add⟩
instance : Sub (F64 K) := ⟨sub⟩
instance : Mul (F64 K) := ⟨mul⟩
instance : Neg (F64 K) := ⟨neg⟩
instance : Div (F64 K) := ⟨div⟩

end F64

/-! ## Constants of `main.go` -/

def screenWidthPx : Int := 800
def screenHeightPx : Int := 600
def particleCount : Int := 2000
def particleRadius : Int := 5

section Model

variable {K : Type} [LinearOrderedField K]

def gravityY : F64 K := F64.fin 0.098
def gravityX : F64 K := F64.fin (-0.005)

/-- The constant `restitution` of the collision loop. -/
def restitution : F64 K := F64.fin 0.9

/-- The constant `collisionIterations`. -/
def collisionIterations : Nat := 3

/-- The functions and constants of package `math` that the program calls, on numbers. -/
structure MathFns (K : Type) where
  sqrt : K → K
  cos : K → K
  sin : K → K
  pi : K

/-! ## Data model -/

/-- The struct `Particle`; `Color` holds the three `uint8` channels. -/
structure Particle (K : Type) where
  X : F64 K
  Y : F64 K
  VelX : F64 K
  VelY : F64 K
  Color : Nat × Nat × Nat

/-- The anonymous struct type of `boostButton` and `upBoostButton`. -/
structure Button where
  x : Int
  y : Int
  width : Int
  height : Int

/-- The struct `Game`. -/
structure Game (K : Type) where
  particles : List (Particle K)
  showMenu : Bool
  numParticles : Int
  boostButton : Button
  upBoostButton : Button
  particlesToAdd : Int
  frameCount : Int

/-- What one call of `Game.Update` reads from outside: the pointer, the two keys, and the
values drawn from the random source when a particle is spawned (`rng.Float64()` for the
angle, the X jitter, the Y jitter and the vertical velocity jitter; `rng.Intn` for the
three colour channels). -/
structure Input (K : Type) where
  mouseX : Int
  mouseY : Int
  mousePressed : Bool
  keyM : Bool
  keyControl : Bool
  rAngle : K
  rX : K
  rY : K
  rVel : K
  c0 : Nat
  c1 : Nat
  c2 : Nat

/-- Two's-complement wrap-around of a 64-bit `int`. -/
def wrapInt (x : Int) : Int := (x + 9223372036854775808) % 18446744073709551616 - 9223372036854775808

/-! ## The integrate-and-boundary loop (lines 117-141) -/

/-- One axis of the boundary test: `if c < lo { c = lo; v = -v * 0.3 } else if c > hi
{ c = hi; v = -v * 0.3 }`. -/
def clampAxis (lo hi : F64 K) (c v : F64 K) : F64 K × F64 K :=
  if F64.lt c lo then (lo, -v * F64.fin 0.3)
  else if F64.gt c hi then (hi, -v * F64.fin 0.3)
  else (c, v)

/-- The body of the loop `for i := range g.particles` at lines 117-141, for a gravity
vector `(gx, gy)`: the program runs it with `(gravityX, gravityY)`. -/
def integrateG (gx gy : F64 K) (p : Particle K) : Particle K :=
  let velY := p.VelY + gy
  let velX := p.VelX + gx
  let x := p.X + velX
  let y := p.Y + velY
  let cx := clampAxis (F64.ofInt particleRadius) (F64.ofInt (screenWidthPx - particleRadius)) x velX
  let cy := clampAxis (F64.ofInt particleRadius) (F64.ofInt (screenHeightPx - particleRadius)) y velY
  { p with X := cx.1, VelX := cx.2, Y := cy.1, VelY := cy.2 }

/-- The loop body with the program's gravity constants. -/
def integrate (p : Particle K) : Particle K := integrateG gravityX gravityY p

/-! ## The spawn step (lines 54-79) -/

/-- A function of package `math` applied to a float: NaN for NaN. -/
def F64.app (f : K → K) : F64 K → F64 K
  | F64.fin a => F64.fin (f a)
  | F64.nan => F64.nan

/-- The composite literal `newParticle` of lines 65-75. -/
def newParticle (m : MathFns K) (inp : Input K) : Particle K :=
  let startX : F64 K := F64.ofInt (particleRadius * 2)
  let startY : F64 K := F64.ofInt (particleRadius * 2)
  let angle : F64 K := F64.fin inp.rAngle * F64.fin (2 * m.pi)
  let baseAngle : F64 K := F64.fin 0.0
  let speed : F64 K := F64.fin 10.00
  { X := startX + F64.fin inp.rX * F64.ofInt particleRadius
    Y := startY + F64.fin inp.rY * F64.ofInt particleRadius
    VelX := speed * F64.app m.cos (baseAngle + angle)
    VelY := speed * F64.app m.sin (baseAngle + angle) + F64.fin inp.rVel * F64.fin 0.5
    Color := ((50 + inp.c0) % 256, (50 + inp.c1) % 256, (200 + inp.c2) % 256) }

/-- The block `if g.particlesToAdd > 0 && g.frameCount > 0 { ... }`. -/
def spawnStep (m : MathFns K) (inp : Input K) (g : Game K) : Game K :=
  if g.particlesToAdd > 0 ∧ g.frameCount > 0 then
    { g with
      particles := g.particles ++ [newParticle m inp]
      particlesToAdd := wrapInt (g.particlesToAdd - 1) }
  else g

/-! ## The pointer block (lines 81-115) -/

/-- The hit test `mouseX >= b.x && mouseX <= b.x+b.width && mouseY >= b.y &&
mouseY <= b.y+b.height`. -/
def inButton (b : Button) (mouseX mouseY : Int) : Bool :=
  decide (mouseX ≥ b.x) && decide (mouseX ≤ wrapInt (b.x + b.width)) &&
    decide (mouseY ≥ b.y) && decide (mouseY ≤ wrapInt (b.y + b.height))

/-- The block `if g.showMenu { ... }` of lines 96-114; `menuX = 20`, `menuY = 100`,
`buttonHeight = 30`, `buttonWidth = 200` (sums of these four do not wrap). -/
def menuStep (inp : Input K) (g : Game K) : Game K :=
  let menuX : Int := 20
  let menuY : Int := 100
  let buttonHeight : Int := 30
  let buttonWidth : Int := 200
  if inp.mouseX ≥ menuX ∧ inp.mouseX ≤ menuX + buttonWidth then
    if inp.mouseY ≥ menuY ∧ inp.mouseY ≤ menuY + buttonHeight then
      { g with particlesToAdd := wrapInt (g.particlesToAdd + 100), numParticles := 100 }
    else if inp.mouseY ≥ menuY + buttonHeight + 10 ∧ inp.mouseY ≤ menuY + buttonHeight * 2 + 10 then
      { g with particlesToAdd := wrapInt (g.particlesToAdd + 300), numParticles := 300 }
    else if inp.mouseY ≥ menuY + buttonHeight * 2 + 20 ∧ inp.mouseY ≤ menuY + buttonHeight * 3 + 20 then
      { g with particlesToAdd := wrapInt (g.particlesToAdd + 500), numParticles := 500 }
    else g
  else g

/-- The loop `for i := range g.particles { g.particles[i].VelY -= 10.0 }`. -/
def boostUp (p : Particle K) : Particle K :=
  { p with VelY := p.VelY - F64.fin 10.0 }

/-- The block of lines 82-87: a press on the "ADD WATER" button requests 20 particles
while fewer than 1000 are live or pending. -/
def addWaterStep (inp : Input K) (g : Game K) : Game K :=
  if inButton g.boostButton inp.mouseX inp.mouseY then
    if wrapInt ((g.particles.length : Int) + g.particlesToAdd) < 1000 then
      { g with particlesToAdd := wrapInt (g.particlesToAdd + 20) }
    else g
  else g

/-- The block of lines 89-94: a press on the "BOOST UP" button. -/
def boostUpStep (inp : Input K) (g : Game K) : Game K :=
  if inButton g.upBoostButton inp.mouseX inp.mouseY then
    { g with particles := g.particles.map boostUp }
  else g

/-- The block `if mousePressed { ... }` of lines 81-115. -/
def inputStep (inp : Input K) (g : Game K) : Game K :=
  if inp.mousePressed then
    let g1 := addWaterStep inp g
    let g2 := boostUpStep inp g1
    if g2.showMenu then menuStep inp g2 else g2
  else g

/-! ## The collision resolver (lines 143-190) -/

/-- The body of the innermost loop (lines 150-187) for the pair `p1 = g.particles[i]`,
`p2 = g.particles[j]`, for a restitution `e`: the program runs it with `restitution`. -/
def resolvePairE (sqrt : K → K) (e : F64 K) (p1 p2 : Particle K) : Particle K × Particle K :=
  let dx := p1.X - p2.X
  let dy := p1.Y - p2.Y
  let distSquared := dx * dx + dy * dy
  let minDist : F64 K := F64.fin 2.0 * F64.ofInt particleRadius
  if F64.lt distSquared (minDist * minDist) then
    let dist := F64.sqrt sqrt distSquared
    let nx := dx / dist
    let ny := dy / dist
    let overlap := minDist - dist
    let moveX := nx * overlap * F64.fin 0.5
    let moveY := ny * overlap * F64.fin 0.5
    let v1n := p1.VelX * nx + p1.VelY * ny
    let v2n := p2.VelX * nx + p2.VelY * ny
    let v1nNew := (v1n * (F64.fin 1 - e) + v2n * (F64.fin 1 + e)) / F64.fin 2
    let v2nNew := (v2n * (F64.fin 1 - e) + v1n * (F64.fin 1 + e)) / F64.fin 2
    let dvx1 := (v1nNew - v1n) * nx
    let dvy1 := (v1nNew - v1n) * ny
    let dvx2 := (v2nNew - v2n) * nx
    let dvy2 := (v2nNew - v2n) * ny
    ({ p1 with X := p1.X + moveX, Y := p1.Y + moveY, VelX := p1.VelX + dvx1, VelY := p1.VelY + dvy1 },
     { p2 with X := p2.X - moveX, Y := p2.Y - moveY, VelX := p2.VelX + dvx2, VelY := p2.VelY + dvy2 })
  else (p1, p2)

/-- The innermost loop body with the program's constant `restitution = 0.9`. -/
def resolvePair (sqrt : K → K) (p1 p2 : Particle K) : Particle K × Particle K :=
  resolvePairE sqrt restitution p1 p2

/-- One iteration of the `j` loop: the pair `(i, j)` is read from the slice, resolved,
and written back in place. -/
def pairStep (sqrt : K → K) (i j : Nat) (ps : List (Particle K)) : List (Particle K) :=
  match ps[i]?, ps[j]? with
  | some p1, some p2 =>
    let r := resolvePair sqrt p1 p2
    (ps.set i r.1).set j r.2
  | _, _ => ps

/-- The loop `for j := i + 1; j < len(g.particles); j++`. -/
def innerLoop (sqrt : K → K) (i : Nat) (ps : List (Particle K)) : List (Particle K) :=
  (List.range' (i + 1) (ps.length - (i + 1))).foldl (fun acc j => pairStep sqrt i j acc) ps

/-- The loop `for i := range g.particles` of one collision pass. -/
def collisionPass (sqrt : K → K) (ps : List (Particle K)) : List (Particle K) :=
  (List.range ps.length).foldl (fun acc i => innerLoop sqrt i acc) ps

/-- The loop `for iter := 0; iter < collisionIterations; iter++`. -/
def collisions (sqrt : K → K) (ps : List (Particle K)) : List (Particle K) :=
  (List.range collisionIterations).foldl (fun acc _ => collisionPass sqrt acc) ps

/-! ## `Game.Update` -/

/-- The method `Game.Update` for a gravity vector `(gx, gy)`; the returned error is
always `nil`, so the result is the new state. -/
def Game.UpdateG (m : MathFns K) (gx gy : F64 K) (inp : Input K) (g : Game K) : Game K :=
  let g1 := { g with frameCount := wrapInt (g.frameCount + 1) }
  let g2 := if inp.keyM && inp.keyControl then { g1 with showMenu := !g1.showMenu } else g1
  let g3 := spawnStep m inp g2
  let g4 := inputStep inp g3
  let g5 := { g4 with particles := g4.particles.map (integrateG gx gy) }
  { g5 with particles := collisions m.sqrt g5.particles }

/-- The method `Game.Update` as the program runs it. -/
def Game.Update (m : MathFns K) (inp : Input K) (g : Game K) : Game K :=
  Game.UpdateG m gravityX gravityY inp g

/-- Successive ticks: one call of `Game.UpdateG` per input, in order. -/
def runG (m : MathFns K) (gx gy : F64 K) : List (Input K) → Game K → Game K
  | [], g => g
  | inp :: rest, g => runG m gx gy rest (Game.UpdateG m gx gy inp g)

/-- Successive ticks of `Game.Update`. -/
def run (m : MathFns K) (inps : List (Input K)) (g : Game K) : Game K :=
  runG m gravityX gravityY inps g

/-! ## Notions used to state the properties -/

/-- Float comparison `x <= y`; false when either side is NaN. -/
def F64.le : F64 K → F64 K → Bool
  | F64.fin a, F64.fin b => decide (a ≤ b)
  | _, _ => false

/-- Boundary containment of one particle: `particleRadius <= X <= screenWidthPx -
particleRadius` and `particleRadius <= Y <= screenHeightPx - particleRadius`. -/
def contained (p : Particle K) : Bool :=
  F64.le (F64.ofInt particleRadius) p.X && F64.le p.X (F64.ofInt (screenWidthPx - particleRadius)) &&
    F64.le (F64.ofInt particleRadius) p.Y && F64.le p.Y (F64.ofInt (screenHeightPx - particleRadius))

/-- The squared centre distance `dx*dx + dy*dy` of two particles. -/
def centreDistSq (p1 p2 : Particle K) : F64 K :=
  (p1.X - p2.X) * (p1.X - p2.X) + (p1.Y - p2.Y) * (p1.Y - p2.Y)

/-- The overlap test `distSquared < minDist*minDist` of the collision loop. -/
def overlaps (p1 p2 : Particle K) : Bool :=
  F64.lt (centreDistSq p1 p2)
    ((F64.fin 2.0 * F64.ofInt particleRadius) * (F64.fin 2.0 * F64.ofInt particleRadius))

/-- The function `s` returns the square root of `a`: exact arithmetic for `math.Sqrt`
at this argument. -/
def ExactSqrtAt (s : K → K) (a : K) : Prop := 0 ≤ s a ∧ s a * s a = a

/-- The component of a particle's velocity along the direction `(nx, ny)`. -/
def velAlong (nx ny : K) (p : Particle K) : F64 K :=
  p.VelX * F64.fin nx + p.VelY * F64.fin ny

/-- The component of a particle's velocity perpendicular to the direction `(nx, ny)`,
that is, along `(-ny, nx)`. -/
def velAcross (nx ny : K) (p : Particle K) : F64 K :=
  p.VelX * F64.fin (-ny) + p.VelY * F64.fin nx

/-- The menu's visibility when the pointer block of a call runs: the state's `showMenu`,
toggled when Ctrl and M are both held (lines 50-52). -/
def menuShown (inp : Input K) (shown : Bool) : Bool :=
  if inp.keyM && inp.keyControl then !shown else shown

/-- The pointer is on one of the three menu entries "Add 100 / 300 / 500 Particles":
`20 <= mouseX <= 220` and `mouseY` in `[100, 130]`, `[140, 170]` or `[180, 210]`
(lines 102-112). -/
def onMenuEntry (mouseX mouseY : Int) : Bool :=
  decide (20 ≤ mouseX ∧ mouseX ≤ 220) &&
    (decide (100 ≤ mouseY ∧ mouseY ≤ 130) || decide (140 ≤ mouseY ∧ mouseY ≤ 170) ||
      decide (180 ≤ mouseY ∧ mouseY ≤ 210))

/-- The input of one call requests spawns: the mouse button is pressed on the
"ADD WATER" button, or on a menu entry while the menu is shown.  A press anywhere
else, on "BOOST UP" included, requests none. -/
def requestsSpawn (boost : Button) (shown : Bool) (inp : Input K) : Bool :=
  inp.mousePressed &&
    (inButton boost inp.mouseX inp.mouseY ||
      (menuShown inp shown && onMenuEntry inp.mouseX inp.mouseY))

/-- No input of a run requests spawns, for the "ADD WATER" button `boost` and the menu
visibility `shown` before the first call. -/
def noSpawnRequests (boost : Button) : Bool → List (Input K) → Bool
  | _, [] => true
  | shown, inp :: rest =>
    !requestsSpawn boost shown inp && noSpawnRequests boost (menuShown inp shown) rest

/-- The specification's boundary rule for one axis of extent `dimension`: a coordinate
below the radius becomes the radius, one above `dimension - radius` becomes
`dimension - radius`, and in either case the velocity component becomes `-0.3` times its
value; otherwise both are kept. -/
def boundaryAxisSpec (dimension : Int) (c v : F64 K) : F64 K × F64 K :=
  if F64.lt c (F64.ofInt particleRadius) then
    (F64.ofInt particleRadius, F64.fin (-0.3) * v)
  else if F64.lt (F64.ofInt (dimension - particleRadius)) c then
    (F64.ofInt (dimension - particleRadius), F64.fin (-0.3) * v)
  else (c, v)

/-- The specification's motion step of one particle: velocity plus gravity first, then
position plus the new velocity, then the boundary rule on each axis independently. -/
def motionStepSpec (p : Particle K) : Particle K :=
  let v : F64 K × F64 K := (p.VelX + gravityX, p.VelY + gravityY)
  let q : F64 K × F64 K := (p.X + v.1, p.Y + v.2)
  let bx := boundaryAxisSpec screenWidthPx q.1 v.1
  let by1 := boundaryAxisSpec screenHeightPx q.2 v.2
  { X := bx.1, Y := by1.1, VelX := bx.2, VelY := by1.2, Color := p.Color }

end Model

/-! ## An executable instance over the rationals -/

/-- Newton iteration for the integer square root of `n`, from the estimate `x`. -/
def newtonSqrt (n : Nat) : Nat → Nat → Nat
  | 0, x => x
  | fuel + 1, x =>
    let y := (x + n / x) / 2
    if y < x then newtonSqrt n fuel y else x

/-- The integer square root. -/
def natSqrt (n : Nat) : Nat := newtonSqrt n n n

/-- A square root on the rationals, exact on squares of rationals. -/
def ratSqrt (q : ℚ) : ℚ := (natSqrt q.num.toNat : ℚ) / (natSqrt q.den : ℚ)

/-- Rational stand-ins for package `math`: `ratSqrt`, and truncated series for cosine
and sine. -/
def ratMath : MathFns ℚ where
  sqrt := ratSqrt
  cos := fun x => 1 - x ^ 2 / 2 + x ^ 4 / 24
  sin := fun x => x - x ^ 3 / 6 + x ^ 5 / 120
  pi := 355 / 113

/-- An input with no key and no button pressed. -/
def idleInput : Input ℚ :=
  { mouseX := 0, mouseY := 0, mousePressed := false, keyM := false, keyControl := false,
    rAngle := 0, rX := 0, rY := 0, rVel := 0, c0 := 0, c1 := 0, c2 := 0 }

/-- An input with the mouse button pressed at `(x, y)` and no key held. -/
def pressAt (x y : Int) : Input ℚ :=
  { idleInput with mouseX := x, mouseY := y, mousePressed := true }

/-- A particle at rest at `(x, y)`. -/
def restingAt (x y : ℚ) : Particle ℚ :=
  { X := F64.fin x, Y := F64.fin y, VelX := F64.fin 0, VelY := F64.fin 0, Color := (50, 50, 200) }

/-- The state built by `main`, with the given particles, pending count and frame count. -/
def gameWith (ps : List (Particle ℚ)) (toAdd frame : Int) : Game ℚ :=
  { particles := ps, showMenu := false, numParticles := particleCount,
    boostButton := ⟨screenWidthPx / 2 - 120, 20, 100, 40⟩,
    upBoostButton := ⟨screenWidthPx / 2 + 20, 20, 100, 40⟩,
    particlesToAdd := toAdd, frameCount := frame }

/-! ## The collision resolver in rounded arithmetic -/

section Rounded

variable {K : Type} [LinearOrderedField K]

/-- The innermost loop body (lines 150-187) with every arithmetic operation followed by
the rounding `rnd`, as float64 arithmetic does (each operation rounded on its own, as
compiled for amd64; no fused multiply-add).  Constant expressions are folded exactly
before they are rounded, as the Go compiler does: `1-restitution` and `1+restitution`
for the restitution `e0`, and `2.0 * float64(particleRadius)`.  With `rnd` the identity
this is `resolvePairE`. -/
def resolvePairR (rnd sqrt : K → K) (e0 : K) (p1 p2 : Particle K) : Particle K × Particle K :=
  let r : F64 K → F64 K := F64.app rnd
  let dx := r (p1.X - p2.X)
  let dy := r (p1.Y - p2.Y)
  let distSquared := r (r (dx * dx) + r (dy * dy))
  let minDist : F64 K := r (F64.fin 2.0 * F64.ofInt particleRadius)
  if F64.lt distSquared (r (minDist * minDist)) then
    let dist := F64.sqrt sqrt distSquared
    let nx := r (dx / dist)
    let ny := r (dy / dist)
    let overlap := r (minDist - dist)
    let moveX := r (r (nx * overlap) * r (F64.fin 0.5))
    let moveY := r (r (ny * overlap) * r (F64.fin 0.5))
    let v1n := r (r (p1.VelX * nx) + r (p1.VelY * ny))
    let v2n := r (r (p2.VelX * nx) + r (p2.VelY * ny))
    let v1nNew := r (r (r (v1n * r (F64.fin (1 - e0))) + r (v2n * r (F64.fin (1 + e0)))) / r (F64.fin 2))
    let v2nNew := r (r (r (v2n * r (F64.fin (1 - e0))) + r (v1n * r (F64.fin (1 + e0)))) / r (F64.fin 2))
    let dvx1 := r (r (v1nNew - v1n) * nx)
    let dvy1 := r (r (v1nNew - v1n) * ny)
    let dvx2 := r (r (v2nNew - v2n) * nx)
    let dvy2 := r (r (v2nNew - v2n) * ny)
    ({ p1 with X := r (p1.X + moveX), Y := r (p1.Y + moveY),
               VelX := r (p1.VelX + dvx1), VelY := r (p1.VelY + dvy1) },
     { p2 with X := r (p2.X - moveX), Y := r (p2.Y - moveY),
               VelX := r (p2.VelX + dvx2), VelY := r (p2.VelY + dvy2) })
  else (p1, p2)

/-- One iteration of the `j` loop for a given pair resolver. -/
def pairStepWith (resolve : Particle K → Particle K → Particle K × Particle K)
    (i j : Nat) (ps : List (Particle K)) : List (Particle K) :=
  match ps[i]?, ps[j]? with
  | some p1, some p2 =>
    let r := resolve p1 p2
    (ps.set i r.1).set j r.2
  | _, _ => ps

/-- The loop `for j := i + 1; j < len(g.particles); j++` for a given pair resolver. -/
def innerLoopWith (resolve : Particle K → Particle K → Particle K × Particle K)
    (i : Nat) (ps : List (Particle K)) : List (Particle K) :=
  (List.range' (i + 1) (ps.length - (i + 1))).foldl (fun acc j => pairStepWith resolve i j acc) ps

/-- One collision pass for a given pair resolver. -/
def collisionPassWith (resolve : Particle K → Particle K → Particle K × Particle K)
    (ps : List (Particle K)) : List (Particle K) :=
  (List.range ps.length).foldl (fun acc i => innerLoopWith resolve i acc) ps

/-- The `collisionIterations` passes for a given pair resolver. -/
def collisionsWith (resolve : Particle K → Particle K → Particle K × Particle K)
    (ps : List (Particle K)) : List (Particle K) :=
  (List.range collisionIterations).foldl (fun acc _ => collisionPassWith resolve acc) ps

end Rounded

/-! ## IEEE 754 binary64 rounding on the rationals -/

/-- The number of binary digits of `n`, by repeated halving (at most `fuel` steps). -/
def bitLen : Nat → Nat → Nat
  | 0, _ => 0
  | fuel + 1, n => if n = 0 then 0 else bitLen fuel (n / 2) + 1

/-- The power of two `2^e` for an integer exponent. -/
def pow2 (e : Int) : ℚ := if 0 ≤ e then ((2 ^ e.toNat : Nat) : ℚ) else 1 / ((2 ^ (-e).toNat : Nat) : ℚ)

/-- The binary exponent of a positive rational `a`: the integer `e` with
`2^e <= a < 2^(e+1)`. -/
def floorLog2 (a : ℚ) : Int :=
  let e0 : Int := (bitLen a.num.toNat a.num.toNat : Int) - (bitLen a.den a.den : Int)
  if a < pow2 e0 then e0 - 1 else e0

/-- The nearest integer, a tie going to the even one. -/
def roundHalfEven (t : ℚ) : Int :=
  let f := ⌊t⌋
  if t - f < 1 / 2 then f
  else if 1 / 2 < t - f then f + 1
  else if f % 2 = 0 then f else f + 1

/-- Rounding to the nearest float64 (IEEE 754 binary64, round to nearest, ties to even):
a significand of 53 bits, and below `2^-1022` the fixed spacing `2^-1074` of the
subnormal numbers.  Overflow beyond the largest float64 is not modelled. -/
def round64 (x : ℚ) : ℚ :=
  if x = 0 then 0
  else
    let q : Int := max (floorLog2 |x|) (-1022) - 52
    let n : Int := roundHalfEven (|x| / pow2 q)
    if x < 0 then -((n : ℚ) * pow2 q) else (n : ℚ) * pow2 q

/-- The integer square root by bits: tries the bits `2^(k-1)`, ..., `2^0` on top of `r`. -/
def isqrtAux (n : Nat) : Nat → Nat → Nat
  | 0, r => r
  | k + 1, r => if (r + 2 ^ k) * (r + 2 ^ k) ≤ n then isqrtAux n k (r + 2 ^ k) else isqrtAux n k r

/-- The integer square root: the largest `r` with `r * r <= n`. -/
def isqrt (n : Nat) : Nat := isqrtAux n (bitLen n n) 0

/-- The call `math.Sqrt(x)` on a non-negative number: the float64 nearest the exact
square root (correctly rounded, ties to even).  The argument is scaled by a power of 4
so that its integer square root has 53 bits; one more comparison decides the rounding. -/
def sqrt64 (x : ℚ) : ℚ :=
  if x ≤ 0 then 0
  else
    let t : Int := (105 - floorLog2 x) / 2
    let y : ℚ := x * pow2 (2 * t)
    let n : Nat := isqrt ⌊y⌋.toNat
    let r : Nat :=
      if y < (n : ℚ) * n + n + 1 / 4 then n
      else if (n : ℚ) * n + n + 1 / 4 < y then n + 1
      else if n % 2 = 0 then n else n + 1
    (r : ℚ) * pow2 (-t)

/-- The unit roundoff of float64. -/
def u64 : ℚ := 1 / 2 ^ 53

/-- Half the spacing of the subnormal float64 numbers. -/
def eta64 : ℚ := 1 / 2 ^ 1075

/-- The value `r` is a rounding of `x`: within relative error `u64` plus the absolute
error `η` of gradual underflow. -/
def Rnd (η : ℚ) (r x : ℚ) : Prop := |r - x| ≤ u64 * |x| + η

/-- The squared centre distance `dx*dx + dy*dy` as float64 arithmetic computes it from
the coordinates of two centres. -/
def distSq64 (x1 y1 x2 y2 : ℚ) : ℚ :=
  round64 (round64 (round64 (x1 - x2) * round64 (x1 - x2)) +
    round64 (round64 (y1 - y2) * round64 (y1 - y2)))

/-- The collision normal `(nx, ny) = (dx / dist, dy / dist)` as float64 arithmetic
computes it from the coordinates of two centres. -/
def normal64 (x1 y1 x2 y2 : ℚ) : ℚ × ℚ :=
  (round64 (round64 (x1 - x2) / sqrt64 (distSq64 x1 y1 x2 y2)),
   round64 (round64 (y1 - y2) / sqrt64 (distSq64 x1 y1 x2 y2)))

/-- The innermost loop body in float64 arithmetic, with the program's restitution. -/
def resolvePair64 (p1 p2 : Particle ℚ) : Particle ℚ × Particle ℚ :=
  resolvePairR round64 sqrt64 0.9 p1 p2

/-- The three collision passes in float64 arithmetic. -/
def collisions64 (ps : List (Particle ℚ)) : List (Particle ℚ) :=
  collisionsWith resolvePair64 ps

/-! ## Steps that do not touch the store -/

section Plain

variable {K : Type}

theorem addWaterStep_particles (inp : Input K) (g : Game K) :
    (addWaterStep inp g).particles = g.particles := by
  unfold addWaterStep
  split_ifs <;> rfl

theorem menuStep_particles (inp : Input K) (g : Game K) :
    (menuStep inp g).particles = g.particles := by
  unfold menuStep
  dsimp only
  split_ifs <;> rfl

theorem addWaterStep_frame (inp : Input K) (g : Game K) :
    (addWaterStep inp g).frameCount = g.frameCount ∧
      (addWaterStep inp g).boostButton = g.boostButton ∧
      (addWaterStep inp g).showMenu = g.showMenu := by
  unfold addWaterStep
  split_ifs <;> exact ⟨rfl, rfl, rfl⟩

theorem menuStep_frame (inp : Input K) (g : Game K) :
    (menuStep inp g).frameCount = g.frameCount ∧
      (menuStep inp g).boostButton = g.boostButton ∧
      (menuStep inp g).showMenu = g.showMenu := by
  unfold menuStep
  dsimp only
  split_ifs <;> exact ⟨rfl, rfl, rfl⟩

theorem noSpawnRequests_take (boost : Button) (shown : Bool) (inps : List (Input K)) (n : Nat)
    (h : noSpawnRequests boost shown inps = true) :
    noSpawnRequests boost shown (inps.take n) = true := by
  induction inps generalizing shown n with
  | nil => simpa using h
  | cons inp rest ih =>
    cases n with
    | zero => rfl
    | succ k =>
      simp only [noSpawnRequests, Bool.and_eq_true] at h
      simp only [List.take_succ_cons, noSpawnRequests, Bool.and_eq_true]
      exact ⟨h.1, ih _ k h.2⟩

end Plain

/-! ## Arithmetic of `F64` on numbers -/

section Lemmas

variable {K : Type} [LinearOrderedField K]

@[simp] theorem F64.fin_add (a b : K) : (F64.fin a + F64.fin b : F64 K) = F64.fin (a + b) := rfl
@[simp] theorem F64.fin_sub (a b : K) : (F64.fin a - F64.fin b : F64 K) = F64.fin (a - b) := rfl
@[simp] theorem F64.fin_mul (a b : K) : (F64.fin a * F64.fin b : F64 K) = F64.fin (a * b) := rfl
@[simp] theorem F64.fin_neg (a : K) : (-F64.fin a : F64 K) = F64.fin (-a) := rfl
@[simp] theorem F64.nan_add (x : F64 K) : (F64.nan + x : F64 K) = F64.nan := rfl
@[simp] theorem F64.add_nan (x : F64 K) : (x + F64.nan : F64 K) = F64.nan := by cases x <;> rfl
@[simp] theorem F64.nan_sub (x : F64 K) : (F64.nan - x : F64 K) = F64.nan := rfl
@[simp] theorem F64.sub_nan (x : F64 K) : (x - F64.nan : F64 K) = F64.nan := by cases x <;> rfl
@[simp] theorem F64.nan_mul (x : F64 K) : (F64.nan * x : F64 K) = F64.nan := rfl
@[simp] theorem F64.mul_nan (x : F64 K) : (x * F64.nan : F64 K) = F64.nan := by cases x <;> rfl
@[simp] theorem F64.neg_nan : (-F64.nan : F64 K) = F64.nan := rfl
@[simp] theorem F64.nan_div (x : F64 K) : (F64.nan / x : F64 K) = F64.nan := rfl
@[simp] theorem F64.div_nan (x : F64 K) : (x / F64.nan : F64 K) = F64.nan := by cases x <;> rfl

theorem F64.fin_div (a b : K) (hb : b ≠ 0) : (F64.fin a / F64.fin b : F64 K) = F64.fin (a / b) := by
  show F64.div (F64.fin a) (F64.fin b) = _
  simp [F64.div, hb]

@[simp] theorem F64.fin_div_zero (a : K) : (F64.fin a / F64.fin 0 : F64 K) = F64.nan := by
  show F64.div (F64.fin a) (F64.fin 0) = _
  simp [F64.div]

@[simp] theorem F64.lt_fin (a b : K) : F64.lt (F64.fin a) (F64.fin b) = decide (a < b) := rfl
@[simp] theorem F64.gt_fin (a b : K) : F64.gt (F64.fin a) (F64.fin b) = decide (b < a) := rfl
@[simp] theorem F64.le_fin (a b : K) : F64.le (F64.fin a) (F64.fin b) = decide (a ≤ b) := rfl
@[simp] theorem F64.lt_nan_left (x : F64 K) : F64.lt F64.nan x = false := rfl
@[simp] theorem F64.lt_nan_right (x : F64 K) : F64.lt x F64.nan = false := by cases x <;> rfl
@[simp] theorem F64.gt_nan_left (x : F64 K) : F64.gt F64.nan x = false := by cases x <;> rfl
@[simp] theorem F64.gt_nan_right (x : F64 K) : F64.gt x F64.nan = false := rfl
@[simp] theorem F64.le_nan_left (x : F64 K) : F64.le F64.nan x = false := rfl
@[simp] theorem F64.le_nan_right (x : F64 K) : F64.le x F64.nan = false := by cases x <;> rfl

/-! ## The motion step -/

theorem clampAxis_eq_spec (dimension : Int) (c v : F64 K) :
    clampAxis (F64.ofInt particleRadius) (F64.ofInt (dimension - particleRadius)) c v =
      boundaryAxisSpec dimension c v := by
  unfold clampAxis boundaryAxisSpec F64.gt
  have hv : -v * F64.fin 0.3 = F64.fin (-0.3) * v := by
    cases v with
    | fin a => simp; ring
    | nan => simp
  rw [hv]

/-- C9. The loop body of lines 117-141 computes the specification's motion step on every
particle, NaN included: velocity plus gravity, then position plus the new velocity, then
per axis the clamp to `[particleRadius, dimension - particleRadius]` with the velocity
component multiplied by `-0.3` when the clamp applies. -/
theorem integrate_eq_motionStepSpec (p : Particle K) : integrate p = motionStepSpec p := by
  unfold integrate integrateG motionStepSpec
  simp only [clampAxis_eq_spec]

/-- Containment after the clamp of one axis, for a number `c`. -/
theorem clampAxis_bounds (lo hi : K) (hlh : lo ≤ hi) (c : K) (v : F64 K) :
    ∃ c2 : K, (clampAxis (F64.fin lo) (F64.fin hi) (F64.fin c) v).1 = F64.fin c2 ∧
      lo ≤ c2 ∧ c2 ≤ hi := by
  unfold clampAxis
  by_cases h1 : c < lo
  · exact ⟨lo, by simp [h1], le_refl _, hlh⟩
  · by_cases h2 : hi < c
    · exact ⟨hi, by simp [h1, h2], hlh, le_refl _⟩
    · exact ⟨c, by simp [h1, h2], not_lt.mp h1, not_lt.mp h2⟩

/-- C1, as amended. For every particle whose position and velocity are finite numbers,
the position after the integrate-and-boundary step satisfies `5 <= X <= 795` and
`5 <= Y <= 595`. -/
theorem integrate_contained (x y vx vy : K) (c : Nat × Nat × Nat) :
    contained (integrate (Particle.mk (F64.fin x) (F64.fin y) (F64.fin vx) (F64.fin vy) c))
      = true := by
  obtain ⟨a, ha, ha1, ha2⟩ := clampAxis_bounds ((particleRadius : Int) : K)
    (((screenWidthPx - particleRadius : Int)) : K) (by norm_num [particleRadius, screenWidthPx])
    (x + (vx + -0.005)) (F64.fin (vx + -0.005))
  obtain ⟨b, hb, hb1, hb2⟩ := clampAxis_bounds ((particleRadius : Int) : K)
    (((screenHeightPx - particleRadius : Int)) : K) (by norm_num [particleRadius, screenHeightPx])
    (y + (vy + 0.098)) (F64.fin (vy + 0.098))
  simp only [contained, integrate, integrateG, gravityX, gravityY, F64.fin_add, F64.ofInt] at *
  rw [ha, hb]
  simp only [F64.le_fin, ha1, ha2, hb1, hb2, decide_True, Bool.and_self]

/-- C1, counterexample. A particle whose X coordinate is NaN keeps it through the
integrate-and-boundary step (both comparisons of the clamp are false), so its position
does not satisfy `5 <= X <= 795`. -/
theorem integrate_nan_not_contained :
    contained (integrate (Particle.mk (F64.nan : F64 ℚ) (F64.fin 10) (F64.fin 0) (F64.fin 0)
      (50, 50, 200))) = false := by
  decide!

/-! ## The collision resolver on one pair -/

/-- The value of `minDist*minDist`. -/
theorem minDist_sq :
    ((F64.fin 2.0 * F64.ofInt particleRadius) * (F64.fin 2.0 * F64.ofInt particleRadius) : F64 K)
      = F64.fin 100 := by
  simp only [F64.ofInt, particleRadius, F64.fin_mul]
  norm_num

/-- A pair that does not pass the overlap test is left as it is. -/
theorem resolvePairE_of_not_overlaps (s : K → K) (e : F64 K) (p1 p2 : Particle K)
    (h : overlaps p1 p2 = false) : resolvePairE s e p1 p2 = (p1, p2) := by
  unfold overlaps centreDistSq at h
  unfold resolvePairE
  simp only [h]
  simp

/-- The positions written by the innermost loop body for an overlapping pair of distinct
centres `(x1, y1)`, `(x2, y2)`, where `d` is the value returned by `math.Sqrt`. -/
theorem resolvePairE_positions (s : K → K) (e : F64 K) (p1 p2 : Particle K)
    (x1 y1 x2 y2 : K) (h1x : p1.X = F64.fin x1) (h1y : p1.Y = F64.fin y1)
    (h2x : p2.X = F64.fin x2) (h2y : p2.Y = F64.fin y2)
    (hpos : 0 ≤ (x1 - x2) * (x1 - x2) + (y1 - y2) * (y1 - y2))
    (hlt : (x1 - x2) * (x1 - x2) + (y1 - y2) * (y1 - y2) < 100)
    (hd : s ((x1 - x2) * (x1 - x2) + (y1 - y2) * (y1 - y2)) ≠ 0) :
    let d := s ((x1 - x2) * (x1 - x2) + (y1 - y2) * (y1 - y2))
    (resolvePairE s e p1 p2).1.X = F64.fin (x1 + (x1 - x2) / d * (10 - d) * 0.5) ∧
    (resolvePairE s e p1 p2).1.Y = F64.fin (y1 + (y1 - y2) / d * (10 - d) * 0.5) ∧
    (resolvePairE s e p1 p2).2.X = F64.fin (x2 - (x1 - x2) / d * (10 - d) * 0.5) ∧
    (resolvePairE s e p1 p2).2.Y = F64.fin (y2 - (y1 - y2) / d * (10 - d) * 0.5) := by
  intro d
  have hm : (F64.fin 2.0 * F64.ofInt particleRadius : F64 K) = F64.fin 10 := by
    simp only [F64.ofInt, particleRadius, F64.fin_mul]; norm_num
  unfold resolvePairE
  simp only [h1x, h1y, h2x, h2y, hm, F64.fin_sub, F64.fin_mul, F64.fin_add, F64.lt_fin, F64.sqrt,
    not_lt.mpr hpos, if_false, F64.fin_div _ _ hd]
  have h100 : (10 : K) * 10 = 100 := by norm_num
  simp only [h100, hlt, decide_True, if_true]
  exact ⟨trivial, trivial, trivial, trivial⟩

/-- The velocities written by the innermost loop body for an overlapping pair of distinct
centres whose velocities are the numbers `(u1, w1)` and `(u2, w2)`, for a restitution
`e0`. -/
theorem resolvePairE_velocities (s : K → K) (e0 : K) (x1 y1 u1 w1 x2 y2 u2 w2 : K)
    (c1 c2 : Nat × Nat × Nat)
    (hpos : 0 ≤ (x1 - x2) * (x1 - x2) + (y1 - y2) * (y1 - y2))
    (hlt : (x1 - x2) * (x1 - x2) + (y1 - y2) * (y1 - y2) < 100)
    (hd : s ((x1 - x2) * (x1 - x2) + (y1 - y2) * (y1 - y2)) ≠ 0) :
    let d := s ((x1 - x2) * (x1 - x2) + (y1 - y2) * (y1 - y2))
    let nx := (x1 - x2) / d
    let ny := (y1 - y2) / d
    let v1n := u1 * nx + w1 * ny
    let v2n := u2 * nx + w2 * ny
    let r := resolvePairE s (F64.fin e0)
      (Particle.mk (F64.fin x1) (F64.fin y1) (F64.fin u1) (F64.fin w1) c1)
      (Particle.mk (F64.fin x2) (F64.fin y2) (F64.fin u2) (F64.fin w2) c2)
    r.1.VelX = F64.fin (u1 + ((v1n * (1 - e0) + v2n * (1 + e0)) / 2 - v1n) * nx) ∧
    r.1.VelY = F64.fin (w1 + ((v1n * (1 - e0) + v2n * (1 + e0)) / 2 - v1n) * ny) ∧
    r.2.VelX = F64.fin (u2 + ((v2n * (1 - e0) + v1n * (1 + e0)) / 2 - v2n) * nx) ∧
    r.2.VelY = F64.fin (w2 + ((v2n * (1 - e0) + v1n * (1 + e0)) / 2 - v2n) * ny) := by
  intro d nx ny v1n v2n r
  have hm : (F64.fin 2.0 * F64.ofInt particleRadius : F64 K) = F64.fin 10 := by
    simp only [F64.ofInt, particleRadius, F64.fin_mul]; norm_num
  have h100 : (10 : K) * 10 = 100 := by norm_num
  have h2 : (2 : K) ≠ 0 := two_ne_zero
  simp only [r, resolvePairE, hm, F64.fin_sub, F64.fin_mul, F64.fin_add, F64.lt_fin, F64.sqrt,
    not_lt.mpr hpos, if_false, F64.fin_div _ _ hd, F64.fin_div _ _ h2, h100, hlt, decide_True,
    if_true]
  exact ⟨trivial, trivial, trivial, trivial⟩

/-- Distinct centres have a positive squared distance. -/
theorem distSq_pos (x1 y1 x2 y2 : K) (hne : x1 ≠ x2 ∨ y1 ≠ y2) :
    0 < (x1 - x2) * (x1 - x2) + (y1 - y2) * (y1 - y2) := by
  rcases hne with h | h
  · have : 0 < (x1 - x2) * (x1 - x2) := mul_self_pos.mpr (sub_ne_zero.mpr h)
    nlinarith [mul_self_nonneg (y1 - y2)]
  · have : 0 < (y1 - y2) * (y1 - y2) := mul_self_pos.mpr (sub_ne_zero.mpr h)
    nlinarith [mul_self_nonneg (x1 - x2)]

/-- An exact square root of a positive number is not zero. -/
theorem ExactSqrtAt.ne_zero {s : K → K} {a : K} (h : ExactSqrtAt s a) (ha : 0 < a) : s a ≠ 0 := by
  intro h0
  have := h.2
  rw [h0] at this
  simp at this
  exact absurd this.symm (ne_of_gt ha)

/-- With an exact square root the collision normal has length one. -/
theorem normal_unit (dx dy d : K) (hd : d ≠ 0) (hdd : d * d = dx * dx + dy * dy) :
    dx / d * (dx / d) + dy / d * (dy / d) = 1 := by
  field_simp
  linear_combination -hdd

/-- The velocity resolution in exact arithmetic.  For an overlapping pair with distinct
centres and an exact square root, with `n` the unit normal from the second particle to
the first and `v1n`, `v2n` the velocity components along `n` before resolution: after
`resolvePair` the first particle's component along `n` is
`(v1n*(1-0.9) + v2n*(1+0.9))/2`, the second's is `(v2n*(1-0.9) + v1n*(1+0.9))/2`, each
particle's component perpendicular to `n` is unchanged, and the relative normal velocity
is `-0.9` times the one before. -/
theorem resolvePair_velocity_formula (s : K → K) (x1 y1 u1 w1 x2 y2 u2 w2 : K)
    (c1 c2 : Nat × Nat × Nat)
    (hne : x1 ≠ x2 ∨ y1 ≠ y2)
    (hlt : (x1 - x2) * (x1 - x2) + (y1 - y2) * (y1 - y2) < 100)
    (hs : ExactSqrtAt s ((x1 - x2) * (x1 - x2) + (y1 - y2) * (y1 - y2))) :
    let p1 := Particle.mk (F64.fin x1) (F64.fin y1) (F64.fin u1) (F64.fin w1) c1
    let p2 := Particle.mk (F64.fin x2) (F64.fin y2) (F64.fin u2) (F64.fin w2) c2
    let d := s ((x1 - x2) * (x1 - x2) + (y1 - y2) * (y1 - y2))
    let nx := (x1 - x2) / d
    let ny := (y1 - y2) / d
    let v1n := u1 * nx + w1 * ny
    let v2n := u2 * nx + w2 * ny
    let r := resolvePair s p1 p2
    nx * nx + ny * ny = 1 ∧
    velAlong nx ny r.1 = F64.fin ((v1n * (1 - 0.9) + v2n * (1 + 0.9)) / 2) ∧
    velAlong nx ny r.2 = F64.fin ((v2n * (1 - 0.9) + v1n * (1 + 0.9)) / 2) ∧
    velAcross nx ny r.1 = velAcross nx ny p1 ∧
    velAcross nx ny r.2 = velAcross nx ny p2 ∧
    velAlong nx ny r.1 - velAlong nx ny r.2 = F64.fin (-0.9 * (v1n - v2n)) := by
  intro p1 p2 d nx ny v1n v2n r
  have hpos := distSq_pos x1 y1 x2 y2 hne
  have hd : d ≠ 0 := hs.ne_zero hpos
  have hunit : nx * nx + ny * ny = 1 := normal_unit (x1 - x2) (y1 - y2) d hd hs.2
  obtain ⟨hv1x, hv1y, hv2x, hv2y⟩ :=
    resolvePairE_velocities s 0.9 x1 y1 u1 w1 x2 y2 u2 w2 c1 c2 (le_of_lt hpos) hlt hd
  have hr : r = resolvePairE s (F64.fin 0.9) p1 p2 := rfl
  refine ⟨hunit, ?_, ?_, ?_, ?_, ?_⟩
  · simp only [velAlong, hr, p1, p2, hv1x, hv1y, F64.fin_mul, F64.fin_add, F64.fin.injEq]
    linear_combination ((u1 * nx + w1 * ny) * (1 - 0.9) / 2 + (u2 * nx + w2 * ny) * (1 + 0.9) / 2
      - (u1 * nx + w1 * ny)) * hunit
  · simp only [velAlong, hr, p1, p2, hv2x, hv2y, F64.fin_mul, F64.fin_add, F64.fin.injEq]
    linear_combination ((u2 * nx + w2 * ny) * (1 - 0.9) / 2 + (u1 * nx + w1 * ny) * (1 + 0.9) / 2
      - (u2 * nx + w2 * ny)) * hunit
  · simp only [velAcross, hr, p1, p2, hv1x, hv1y, F64.fin_mul, F64.fin_add, F64.fin.injEq]
    ring
  · simp only [velAcross, hr, p1, p2, hv2x, hv2y, F64.fin_mul, F64.fin_add, F64.fin.injEq]
    ring
  · simp only [velAlong, hr, p1, p2, hv1x, hv1y, hv2x, hv2y, F64.fin_mul, F64.fin_add,
      F64.fin_sub, F64.fin.injEq]
    linear_combination (-(1.9 : K) * ((u1 * nx + w1 * ny) - (u2 * nx + w2 * ny))) * hunit

/-- The square root `ratSqrt` is exact at `81`. -/
theorem exactSqrt_81 : ExactSqrtAt ratSqrt 81 := ⟨by decide!, by decide!⟩

/-- An instance of the velocity resolution in exact arithmetic: particle A at `(10, 10)`
moving right at speed 1 and particle B at `(19, 10)` moving left at speed 1; the normal
is `(-1, 0)`, `v1n = -1`, `v2n = 1`, and after resolution the components along the
normal are `9/10` and `-9/10`. -/
theorem resolvePair_velocity_formula_witness :
    ExactSqrtAt ratSqrt 81 ∧
    velAlong (-1) 0 (resolvePair ratSqrt
      (Particle.mk (F64.fin 10) (F64.fin 10) (F64.fin 1) (F64.fin 0) (50, 50, 200))
      (Particle.mk (F64.fin 19) (F64.fin 10) (F64.fin (-1)) (F64.fin 0) (50, 50, 200))).1
      = F64.fin (9 / 10) := by
  have h81 : ((10 : ℚ) - 19) * (10 - 19) + (10 - 10) * (10 - 10) = 81 := by norm_num
  have hn : ((10 : ℚ) - 19) / ratSqrt 81 = -1 := by decide!
  have h0 : ((10 : ℚ) - 10) / ratSqrt 81 = 0 := by decide!
  have h := resolvePair_velocity_formula ratSqrt 10 10 1 0 19 10 (-1) 0 (50, 50, 200) (50, 50, 200)
    (Or.inl (by norm_num)) (by norm_num) (by rw [h81]; exact exactSqrt_81)
  simp only [h81, hn, h0] at h
  refine ⟨exactSqrt_81, h.2.1.trans ?_⟩
  norm_num

/-- The head-on exchange in exact arithmetic.  Two overlapping particles with distinct
centres and velocities `c * (dx, dy)` and `-c * (dx, dy)`, equal and opposite along the
line of centres: the velocity resolution evaluated with restitution `1` (and an exact
square root) leaves each particle with the other's former velocity, and the sum of the
two velocity components along the collision normal is the same after resolution as
before. -/
theorem resolvePairE_head_on_exchange (s : K → K) (x1 y1 x2 y2 c : K)
    (c1 c2 : Nat × Nat × Nat)
    (hne : x1 ≠ x2 ∨ y1 ≠ y2)
    (hlt : (x1 - x2) * (x1 - x2) + (y1 - y2) * (y1 - y2) < 100)
    (hs : ExactSqrtAt s ((x1 - x2) * (x1 - x2) + (y1 - y2) * (y1 - y2))) :
    let p1 := Particle.mk (F64.fin x1) (F64.fin y1)
      (F64.fin (c * (x1 - x2))) (F64.fin (c * (y1 - y2))) c1
    let p2 := Particle.mk (F64.fin x2) (F64.fin y2)
      (F64.fin (-(c * (x1 - x2)))) (F64.fin (-(c * (y1 - y2)))) c2
    let d := s ((x1 - x2) * (x1 - x2) + (y1 - y2) * (y1 - y2))
    let nx := (x1 - x2) / d
    let ny := (y1 - y2) / d
    let r := resolvePairE s (F64.fin 1) p1 p2
    (r.1.VelX = p2.VelX ∧ r.1.VelY = p2.VelY) ∧
    (r.2.VelX = p1.VelX ∧ r.2.VelY = p1.VelY) ∧
    velAlong nx ny r.1 + velAlong nx ny r.2 = velAlong nx ny p1 + velAlong nx ny p2 := by
  intro p1 p2 d nx ny r
  have hpos := distSq_pos x1 y1 x2 y2 hne
  have hd : d ≠ 0 := hs.ne_zero hpos
  have hunit : nx * nx + ny * ny = 1 := normal_unit (x1 - x2) (y1 - y2) d hd hs.2
  have hA : x1 - x2 = nx * d := by simp only [nx]; field_simp
  have hB : y1 - y2 = ny * d := by simp only [ny]; field_simp
  obtain ⟨hv1x, hv1y, hv2x, hv2y⟩ :=
    resolvePairE_velocities s 1 x1 y1 (c * (x1 - x2)) (c * (y1 - y2)) x2 y2
      (-(c * (x1 - x2))) (-(c * (y1 - y2))) c1 c2 (le_of_lt hpos) hlt hd
  have e1x : r.1.VelX = F64.fin (-(c * (x1 - x2))) := by
    refine hv1x.trans (congrArg F64.fin ?_)
    show c * (x1 - x2) + ((((c * (x1 - x2)) * nx + (c * (y1 - y2)) * ny) * (1 - 1) +
      ((-(c * (x1 - x2))) * nx + (-(c * (y1 - y2))) * ny) * (1 + 1)) / 2 -
      ((c * (x1 - x2)) * nx + (c * (y1 - y2)) * ny)) * nx = -(c * (x1 - x2))
    rw [hA, hB]
    linear_combination (-2 * c * d * nx) * hunit
  have e1y : r.1.VelY = F64.fin (-(c * (y1 - y2))) := by
    refine hv1y.trans (congrArg F64.fin ?_)
    show c * (y1 - y2) + ((((c * (x1 - x2)) * nx + (c * (y1 - y2)) * ny) * (1 - 1) +
      ((-(c * (x1 - x2))) * nx + (-(c * (y1 - y2))) * ny) * (1 + 1)) / 2 -
      ((c * (x1 - x2)) * nx + (c * (y1 - y2)) * ny)) * ny = -(c * (y1 - y2))
    rw [hA, hB]
    linear_combination (-2 * c * d * ny) * hunit
  have e2x : r.2.VelX = F64.fin (c * (x1 - x2)) := by
    refine hv2x.trans (congrArg F64.fin ?_)
    show -(c * (x1 - x2)) + ((((-(c * (x1 - x2))) * nx + (-(c * (y1 - y2))) * ny) * (1 - 1) +
      ((c * (x1 - x2)) * nx + (c * (y1 - y2)) * ny) * (1 + 1)) / 2 -
      ((-(c * (x1 - x2))) * nx + (-(c * (y1 - y2))) * ny)) * nx = c * (x1 - x2)
    rw [hA, hB]
    linear_combination (2 * c * d * nx) * hunit
  have e2y : r.2.VelY = F64.fin (c * (y1 - y2)) := by
    refine hv2y.trans (congrArg F64.fin ?_)
    show -(c * (y1 - y2)) + ((((-(c * (x1 - x2))) * nx + (-(c * (y1 - y2))) * ny) * (1 - 1) +
      ((c * (x1 - x2)) * nx + (c * (y1 - y2)) * ny) * (1 + 1)) / 2 -
      ((-(c * (x1 - x2))) * nx + (-(c * (y1 - y2))) * ny)) * ny = c * (y1 - y2)
    rw [hA, hB]
    linear_combination (2 * c * d * ny) * hunit
  refine ⟨⟨e1x, e1y⟩, ⟨e2x, e2y⟩, ?_⟩
  simp only [velAlong, e1x, e1y, e2x, e2y, p1, p2, F64.fin_mul, F64.fin_add, F64.fin.injEq]
  ring

/-- An instance of the head-on exchange in exact arithmetic: A at `(10, 10)` with
velocity `(1, 0)` and B at `(19, 10)` with velocity `(-1, 0)` (so `c = -1/9`); with
restitution `1` A leaves with B's velocity. -/
theorem resolvePairE_head_on_exchange_witness :
    ExactSqrtAt ratSqrt 81 ∧
    (resolvePairE ratSqrt (F64.fin 1)
      (Particle.mk (F64.fin 10) (F64.fin 10)
        (F64.fin (-1 / 9 * (10 - 19))) (F64.fin (-1 / 9 * (10 - 10))) (50, 50, 200))
      (Particle.mk (F64.fin 19) (F64.fin 10)
        (F64.fin (-(-1 / 9 * (10 - 19)))) (F64.fin (-(-1 / 9 * (10 - 10)))) (50, 50, 200))).1.VelX
      = F64.fin (-(-1 / 9 * (10 - 19))) := by
  have h81 : ((10 : ℚ) - 19) * (10 - 19) + (10 - 10) * (10 - 10) = 81 := by norm_num
  exact ⟨exactSqrt_81,
    (resolvePairE_head_on_exchange ratSqrt 10 10 19 10 (-1 / 9) (50, 50, 200) (50, 50, 200)
      (Or.inl (by norm_num)) (by norm_num) (by rw [h81]; exact exactSqrt_81)).1.1⟩

/-! ## The collision passes on a store of two particles -/

/-- One pass over a store of two particles resolves the single pair `(0, 1)`. -/
theorem collisionPass_two (s : K → K) (a b : Particle K) :
    collisionPass s [a, b] = [(resolvePair s a b).1, (resolvePair s a b).2] := rfl

/-- The three passes, unfolded. -/
theorem collisions_eq (s : K → K) (ps : List (Particle K)) :
    collisions s ps = collisionPass s (collisionPass s (collisionPass s ps)) := rfl

/-- The separation of two particles in exact arithmetic.  A store of exactly two
particles whose centres are distinct and less than `2 * particleRadius = 10` apart: with
an exact square root, after the first collision pass the squared centre distance is
exactly `10 * 10`, the pair no longer passes the overlap test, and the second and third
passes leave the store as the first pass left it. -/
theorem collisions_two_separate (s : K → K) (p1 p2 : Particle K) (x1 y1 x2 y2 : K)
    (h1x : p1.X = F64.fin x1) (h1y : p1.Y = F64.fin y1)
    (h2x : p2.X = F64.fin x2) (h2y : p2.Y = F64.fin y2)
    (hne : x1 ≠ x2 ∨ y1 ≠ y2)
    (hlt : (x1 - x2) * (x1 - x2) + (y1 - y2) * (y1 - y2) < 100)
    (hs : ExactSqrtAt s ((x1 - x2) * (x1 - x2) + (y1 - y2) * (y1 - y2))) :
    ∃ (q1 q2 : Particle K) (a1 b1 a2 b2 : K),
      collisions s [p1, p2] = [q1, q2] ∧ collisionPass s [p1, p2] = [q1, q2] ∧
      q1.X = F64.fin a1 ∧ q1.Y = F64.fin b1 ∧ q2.X = F64.fin a2 ∧ q2.Y = F64.fin b2 ∧
      (a1 - a2) * (a1 - a2) + (b1 - b2) * (b1 - b2) = 10 * 10 ∧
      overlaps q1 q2 = false := by
  have hpos := distSq_pos x1 y1 x2 y2 hne
  have hd := hs.ne_zero hpos
  obtain ⟨e1x, e1y, e2x, e2y⟩ :=
    resolvePairE_positions s restitution p1 p2 x1 y1 x2 y2 h1x h1y h2x h2y (le_of_lt hpos) hlt hd
  have hdd := hs.2
  generalize s ((x1 - x2) * (x1 - x2) + (y1 - y2) * (y1 - y2)) = d at hd hdd e1x e1y e2x e2y
  have hdist : (x1 + (x1 - x2) / d * (10 - d) * 0.5 - (x2 - (x1 - x2) / d * (10 - d) * 0.5)) *
      (x1 + (x1 - x2) / d * (10 - d) * 0.5 - (x2 - (x1 - x2) / d * (10 - d) * 0.5)) +
      (y1 + (y1 - y2) / d * (10 - d) * 0.5 - (y2 - (y1 - y2) / d * (10 - d) * 0.5)) *
      (y1 + (y1 - y2) / d * (10 - d) * 0.5 - (y2 - (y1 - y2) / d * (10 - d) * 0.5)) = 10 * 10 := by
    field_simp
    linear_combination (-(100 : K)) * hdd
  have hov : overlaps (resolvePair s p1 p2).1 (resolvePair s p1 p2).2 = false := by
    unfold overlaps centreDistSq resolvePair
    rw [e1x, e1y, e2x, e2y, minDist_sq]
    simp only [F64.fin_sub, F64.fin_mul, F64.fin_add, F64.lt_fin, hdist]
    norm_num
  have hfix : collisionPass s [(resolvePair s p1 p2).1, (resolvePair s p1 p2).2] =
      [(resolvePair s p1 p2).1, (resolvePair s p1 p2).2] := by
    rw [collisionPass_two, resolvePair, resolvePairE_of_not_overlaps _ _ _ _ hov]
  refine ⟨(resolvePair s p1 p2).1, (resolvePair s p1 p2).2, _, _, _, _, ?_, collisionPass_two s p1 p2,
    e1x, e1y, e2x, e2y, hdist, hov⟩
  rw [collisions_eq, collisionPass_two, hfix, hfix]

/-- An instance of the separation in exact arithmetic: the specification's scenario, A at
`(10, 10)` and B at `(10 + 2*5 - 1, 10) = (19, 10)`, both at rest. -/
theorem collisions_two_separate_witness :
    ExactSqrtAt ratSqrt 81 ∧
    ∃ (q1 q2 : Particle ℚ) (a1 b1 a2 b2 : ℚ),
      collisions ratSqrt [restingAt 10 10, restingAt 19 10] = [q1, q2] ∧
      collisionPass ratSqrt [restingAt 10 10, restingAt 19 10] = [q1, q2] ∧
      q1.X = F64.fin a1 ∧ q1.Y = F64.fin b1 ∧ q2.X = F64.fin a2 ∧ q2.Y = F64.fin b2 ∧
      (a1 - a2) * (a1 - a2) + (b1 - b2) * (b1 - b2) = 10 * 10 ∧
      overlaps q1 q2 = false := by
  have h81 : ((10 : ℚ) - 19) * (10 - 19) + (10 - 10) * (10 - 10) = 81 := by norm_num
  exact ⟨exactSqrt_81,
    collisions_two_separate ratSqrt (restingAt 10 10) (restingAt 19 10) 10 10 19 10 rfl rfl rfl rfl
      (Or.inl (by norm_num)) (by norm_num) (by rw [h81]; exact exactSqrt_81)⟩

/-! ## Coincident centres -/

/-- C3. Two particles whose centres coincide pass the overlap test, `math.Sqrt` returns
`0`, and the unguarded divisions `dx / dist`, `dy / dist` are `0 / 0`: `resolvePair`
writes NaN into the position and the velocity of both particles. -/
theorem resolvePair_coincident_nan (s : K → K) (hs0 : s 0 = 0) (p1 p2 : Particle K) (x y : K)
    (h1x : p1.X = F64.fin x) (h1y : p1.Y = F64.fin y)
    (h2x : p2.X = F64.fin x) (h2y : p2.Y = F64.fin y) :
    overlaps p1 p2 = true ∧
    (resolvePair s p1 p2).1.X = F64.nan ∧ (resolvePair s p1 p2).1.Y = F64.nan ∧
    (resolvePair s p1 p2).1.VelX = F64.nan ∧ (resolvePair s p1 p2).1.VelY = F64.nan ∧
    (resolvePair s p1 p2).2.X = F64.nan ∧ (resolvePair s p1 p2).2.Y = F64.nan ∧
    (resolvePair s p1 p2).2.VelX = F64.nan ∧ (resolvePair s p1 p2).2.VelY = F64.nan := by
  have hm : (F64.fin 2.0 * F64.ofInt particleRadius : F64 K) = F64.fin 10 := by
    simp only [F64.ofInt, particleRadius, F64.fin_mul]; norm_num
  refine ⟨?_, ?_⟩
  · simp [overlaps, centreDistSq, h1x, h1y, h2x, h2y, hm]
  · simp [resolvePair, resolvePairE, h1x, h1y, h2x, h2y, hm, F64.sqrt, hs0]

/-- C3, witness: two particles at rest at the bottom-left corner `(5, 595)`. -/
theorem resolvePair_coincident_nan_witness :
    ratSqrt 0 = 0 ∧
    (resolvePair ratSqrt (restingAt 5 595) (restingAt 5 595)).1.X = F64.nan := by
  have h0 : ratSqrt 0 = 0 := by decide!
  exact ⟨h0, (resolvePair_coincident_nan ratSqrt h0 (restingAt 5 595) (restingAt 5 595) 5 595
    rfl rfl rfl rfl).2.1⟩

/-- Two particles at rest just outside the bottom-left corner, at `(3, 597)` and
`(2, 598)`: one call of `Game.Update` clamps both to `(5, 595)`, and the collision
resolver then turns both positions into NaN. -/
theorem update_corner_gives_nan :
    (Game.Update ratMath idleInput
        (gameWith [restingAt 3 597, restingAt 2 598] 0 0)).particles.map (fun p => (p.X, p.Y))
      = [(F64.nan, F64.nan), (F64.nan, F64.nan)] := by
  decide!

/-- After the call above, the integrate-and-boundary step of the next tick leaves both
particles outside the bounds: a NaN position is never clamped. -/
theorem nan_survives_next_boundary_step :
    ((Game.Update ratMath idleInput
        (gameWith [restingAt 3 597, restingAt 2 598] 0 0)).particles.map
          (fun p => contained (integrate p))) = [false, false] := by
  decide!

/-! ## Containment after a complete tick -/

/-- C10. A store of two particles at rest, one on the left wall at `(5, 100)` and one at
`(8, 100)`: after a complete call of `Game.Update` the first particle is at
`X = 1.4975`, left of `particleRadius = 5`; the collision passes run after the boundary
clamp and push it through the wall. -/
theorem update_leaves_bounds :
    (Game.Update ratMath idleInput
        (gameWith [restingAt 5 100, restingAt 8 100] 0 0)).particles.map (fun p => p.X)
      = [F64.fin 1.4975, F64.fin 11.4975] ∧
    F64.lt (F64.fin (1.4975 : ℚ)) (F64.ofInt particleRadius) = true ∧
    ((Game.Update ratMath idleInput
        (gameWith [restingAt 5 100, restingAt 8 100] 0 0)).particles.map contained)
      = [false, true] := by
  decide!

/-! ## Lists: writing back what was read, and folds that fix their state -/

theorem list_set_same {α : Type} (L : List α) (i : Nat) (a : α) (h : L[i]? = some a) :
    L.set i a = L := by
  induction L generalizing i with
  | nil => rfl
  | cons b t ih =>
    cases i with
    | zero => simp at h; simp [h]
    | succ n => simp at h; simp [ih n h]

theorem foldl_invariant {α β γ : Type} (f : β → α → β) (obs : β → γ) (l : List α)
    (h : ∀ b a, obs (f b a) = obs b) (b : β) : obs (l.foldl f b) = obs b := by
  induction l generalizing b with
  | nil => rfl
  | cons a t ih => rw [List.foldl_cons, ih, h]

/-! ## Colours and count through the collision passes -/

theorem resolvePairE_color (s : K → K) (e : F64 K) (p1 p2 : Particle K) :
    (resolvePairE s e p1 p2).1.Color = p1.Color ∧ (resolvePairE s e p1 p2).2.Color = p2.Color := by
  unfold resolvePairE
  dsimp only
  split <;> exact ⟨rfl, rfl⟩

theorem pairStep_colors (s : K → K) (i j : Nat) (ps : List (Particle K)) :
    (pairStep s i j ps).map Particle.Color = ps.map Particle.Color := by
  unfold pairStep
  split
  · rename_i p1 p2 h1 h2
    have hc := resolvePairE_color s restitution p1 p2
    dsimp only
    rw [List.map_set, List.map_set, resolvePair, hc.1, hc.2]
    rw [list_set_same (ps.map Particle.Color) i p1.Color (by simp [h1])]
    exact list_set_same (ps.map Particle.Color) j p2.Color (by simp [h2])
  · rfl

theorem innerLoop_colors (s : K → K) (i : Nat) (ps : List (Particle K)) :
    (innerLoop s i ps).map Particle.Color = ps.map Particle.Color := by
  unfold innerLoop
  exact foldl_invariant (fun acc j => pairStep s i j acc) (List.map Particle.Color) _
    (fun b a => pairStep_colors s i a b) ps

theorem collisionPass_colors (s : K → K) (ps : List (Particle K)) :
    (collisionPass s ps).map Particle.Color = ps.map Particle.Color := by
  unfold collisionPass
  exact foldl_invariant (fun acc i => innerLoop s i acc) (List.map Particle.Color) _
    (fun b a => innerLoop_colors s a b) ps

theorem collisions_colors (s : K → K) (ps : List (Particle K)) :
    (collisions s ps).map Particle.Color = ps.map Particle.Color := by
  unfold collisions
  exact foldl_invariant (fun acc _ => collisionPass s acc) (List.map Particle.Color) _
    (fun b _ => collisionPass_colors s b) ps

theorem integrateG_colors (gx gy : F64 K) (ps : List (Particle K)) :
    (ps.map (integrateG gx gy)).map Particle.Color = ps.map Particle.Color := by
  rw [List.map_map]
  rfl

theorem boostUpStep_colors (inp : Input K) (g : Game K) :
    (boostUpStep inp g).particles.map Particle.Color = g.particles.map Particle.Color := by
  unfold boostUpStep
  split_ifs
  · show (g.particles.map boostUp).map Particle.Color = _
    rw [List.map_map]
    rfl
  · rfl

theorem inputStep_colors (inp : Input K) (g : Game K) :
    (inputStep inp g).particles.map Particle.Color = g.particles.map Particle.Color := by
  unfold inputStep
  dsimp only
  split_ifs
  · rw [menuStep_particles, boostUpStep_colors, addWaterStep_particles]
  · rw [boostUpStep_colors, addWaterStep_particles]
  · rfl

/-- The colours in the store after `Game.UpdateG`: those before, followed by the colour of
the spawned particle when the spawn test `particlesToAdd > 0 && frameCount > 0` passes
(the frame counter having been incremented first). -/
theorem UpdateG_colors (m : MathFns K) (gx gy : F64 K) (inp : Input K) (g : Game K) :
    (Game.UpdateG m gx gy inp g).particles.map Particle.Color =
      g.particles.map Particle.Color ++
        (if g.particlesToAdd > 0 ∧ wrapInt (g.frameCount + 1) > 0 then
          [(newParticle m inp).Color] else []) := by
  unfold Game.UpdateG
  dsimp only
  rw [collisions_colors, integrateG_colors, inputStep_colors]
  unfold spawnStep
  split_ifs <;> simp_all

/-- C7. For every state and every input, after one call of `Game.Update` the store is at
least as long as before, and every particle that was in the store is still present at
the same index with the same colour. -/
theorem update_keeps_particles (m : MathFns K) (inp : Input K) (g : Game K) :
    g.particles.length ≤ (Game.Update m inp g).particles.length ∧
    ∀ (i : Nat) (p : Particle K), g.particles[i]? = some p →
      ∃ q, (Game.Update m inp g).particles[i]? = some q ∧ q.Color = p.Color := by
  have hc := UpdateG_colors m gravityX gravityY inp g
  have hlen := congrArg List.length hc
  rw [List.length_append, List.length_map, List.length_map] at hlen
  refine ⟨by unfold Game.Update; omega, ?_⟩
  intro i p hp
  have hi : i < g.particles.length := (List.getElem?_eq_some.mp hp).1
  have h1 : ((Game.Update m inp g).particles.map Particle.Color)[i]? = some p.Color := by
    unfold Game.Update
    rw [hc, List.getElem?_append_left (by simpa using hi), List.getElem?_map, hp]
    rfl
  rw [List.getElem?_map] at h1
  cases hq : (Game.Update m inp g).particles[i]? with
  | none => rw [hq] at h1; simp at h1
  | some q =>
    rw [hq] at h1
    exact ⟨q, rfl, by simpa using h1⟩

/-! ## Spawn pacing -/

theorem wrapInt_of_range (x : Int) (h1 : -9223372036854775808 ≤ x) (h2 : x < 9223372036854775808) :
    wrapInt x = x := by
  unfold wrapInt
  omega

/-- The store length after one call: one more exactly when the spawn test passes. -/
theorem UpdateG_length (m : MathFns K) (gx gy : F64 K) (inp : Input K) (g : Game K) :
    (Game.UpdateG m gx gy inp g).particles.length =
      g.particles.length + (if g.particlesToAdd > 0 ∧ wrapInt (g.frameCount + 1) > 0 then 1 else 0) := by
  have hlen := congrArg List.length (UpdateG_colors m gx gy inp g)
  rw [List.length_append, List.length_map, List.length_map] at hlen
  rw [hlen]
  split_ifs <;> rfl

theorem boostUpStep_frame (inp : Input K) (g : Game K) :
    (boostUpStep inp g).frameCount = g.frameCount ∧
      (boostUpStep inp g).boostButton = g.boostButton ∧
      (boostUpStep inp g).showMenu = g.showMenu := by
  unfold boostUpStep
  split_ifs <;> exact ⟨rfl, rfl, rfl⟩

/-- The pointer block leaves the frame counter, the "ADD WATER" button and the menu
flag as they are. -/
theorem inputStep_frame (inp : Input K) (g : Game K) :
    (inputStep inp g).frameCount = g.frameCount ∧
      (inputStep inp g).boostButton = g.boostButton ∧
      (inputStep inp g).showMenu = g.showMenu := by
  obtain ⟨a1, a2, a3⟩ := addWaterStep_frame inp g
  obtain ⟨b1, b2, b3⟩ := boostUpStep_frame inp (addWaterStep inp g)
  obtain ⟨c1, c2, c3⟩ := menuStep_frame inp (boostUpStep inp (addWaterStep inp g))
  unfold inputStep
  dsimp only
  split_ifs
  · exact ⟨by rw [c1, b1, a1], by rw [c2, b2, a2], by rw [c3, b3, a3]⟩
  · exact ⟨by rw [b1, a1], by rw [b2, a2], by rw [b3, a3]⟩
  · exact ⟨rfl, rfl, rfl⟩

/-- A press that is neither on "ADD WATER" nor on a shown menu entry leaves the pending
count as it is. -/
theorem inputStep_pending (inp : Input K) (g : Game K)
    (h : (inp.mousePressed &&
      (inButton g.boostButton inp.mouseX inp.mouseY ||
        (g.showMenu && onMenuEntry inp.mouseX inp.mouseY))) = false) :
    (inputStep inp g).particlesToAdd = g.particlesToAdd := by
  unfold inputStep
  by_cases hp : inp.mousePressed = true
  · simp only [hp, Bool.true_and, Bool.or_eq_false_iff, Bool.and_eq_false_iff] at h
    obtain ⟨hb, hm⟩ := h
    have h1 : addWaterStep inp g = g := by
      unfold addWaterStep
      simp [hb]
    simp only [hp, if_true, h1]
    have h2 : (boostUpStep inp g).showMenu = g.showMenu := by
      unfold boostUpStep
      split_ifs <;> rfl
    have h3 : (boostUpStep inp g).particlesToAdd = g.particlesToAdd := by
      unfold boostUpStep
      split_ifs <;> rfl
    rw [h2]
    rcases hm with hm | hm
    · simp [hm, h3]
    · by_cases hs : g.showMenu = true
      · simp only [hs, if_true]
        unfold menuStep
        unfold onMenuEntry at hm
        simp only [Bool.and_eq_false_iff, Bool.or_eq_false_iff, decide_eq_false_iff_not] at hm
        dsimp only
        split_ifs <;> first | exact h3 | (exfalso; omega)
      · simp [hs, h3]
  · simp [hp]

/-- The frame counter, the "ADD WATER" button and the menu flag after one call. -/
theorem UpdateG_state (m : MathFns K) (gx gy : F64 K) (inp : Input K) (g : Game K) :
    (Game.UpdateG m gx gy inp g).frameCount = wrapInt (g.frameCount + 1) ∧
      (Game.UpdateG m gx gy inp g).boostButton = g.boostButton ∧
      (Game.UpdateG m gx gy inp g).showMenu = menuShown inp g.showMenu := by
  unfold Game.UpdateG
  dsimp only
  obtain ⟨h1, h2, h3⟩ := inputStep_frame inp
    (spawnStep m inp (if (inp.keyM && inp.keyControl) = true then
      { g with frameCount := wrapInt (g.frameCount + 1), showMenu := !g.showMenu }
      else { g with frameCount := wrapInt (g.frameCount + 1) }))
  refine ⟨?_, ?_, ?_⟩
  · show (inputStep inp _).frameCount = _
    rw [h1]; unfold spawnStep; split_ifs <;> rfl
  · show (inputStep inp _).boostButton = _
    rw [h2]; unfold spawnStep; split_ifs <;> rfl
  · show (inputStep inp _).showMenu = _
    rw [h3]; unfold spawnStep menuShown; split_ifs <;> rfl

/-- The pending count after one call whose input requests no spawn. -/
theorem UpdateG_pending (m : MathFns K) (gx gy : F64 K) (inp : Input K) (g : Game K)
    (h : requestsSpawn g.boostButton g.showMenu inp = false) :
    (Game.UpdateG m gx gy inp g).particlesToAdd =
      (if g.particlesToAdd > 0 ∧ wrapInt (g.frameCount + 1) > 0 then wrapInt (g.particlesToAdd - 1)
        else g.particlesToAdd) := by
  unfold Game.UpdateG
  dsimp only
  unfold requestsSpawn menuShown at h
  rw [inputStep_pending]
  · unfold spawnStep; split_ifs <;> rfl
  · unfold spawnStep
    split_ifs at h ⊢ <;> exact h

/-- After the ticks `inps`, none of which requests a spawn, from a state whose frame
counter is non-negative and does not wrap: `min (number of ticks) particlesToAdd`
particles have been appended and as many pending spawns consumed. -/
theorem runG_spawn_count (m : MathFns K) (gx gy : F64 K) (inps : List (Input K)) (g : Game K)
    (hreq : noSpawnRequests g.boostButton g.showMenu inps = true)
    (hk0 : 0 ≤ g.particlesToAdd) (hk1 : g.particlesToAdd < 9223372036854775808)
    (hf0 : 0 ≤ g.frameCount) (hf1 : g.frameCount + inps.length < 9223372036854775808) :
    (runG m gx gy inps g).particles.length
      = g.particles.length + min inps.length g.particlesToAdd.toNat ∧
    (runG m gx gy inps g).particlesToAdd
      = g.particlesToAdd - min inps.length g.particlesToAdd.toNat := by
  induction inps generalizing g with
  | nil => simp [runG]
  | cons inp rest ih =>
    simp only [noSpawnRequests, Bool.and_eq_true, Bool.not_eq_true'] at hreq
    obtain ⟨hr, hrest⟩ := hreq
    have hlen := UpdateG_length m gx gy inp g
    obtain ⟨hfc, hbb, hsm⟩ := UpdateG_state m gx gy inp g
    have hta := UpdateG_pending m gx gy inp g hr
    simp only [List.length_cons, Nat.cast_add, Nat.cast_one] at hf1
    have hw : wrapInt (g.frameCount + 1) = g.frameCount + 1 := wrapInt_of_range _ (by omega) (by omega)
    rw [hw] at hlen hta hfc
    have hfpos : g.frameCount + 1 > 0 := by omega
    have hrest2 : noSpawnRequests (Game.UpdateG m gx gy inp g).boostButton
        (Game.UpdateG m gx gy inp g).showMenu rest = true := by
      rw [hbb, hsm]; exact hrest
    by_cases hk : g.particlesToAdd > 0
    · have hw2 : wrapInt (g.particlesToAdd - 1) = g.particlesToAdd - 1 :=
        wrapInt_of_range _ (by omega) (by omega)
      rw [if_pos ⟨hk, hfpos⟩] at hlen hta
      rw [hw2] at hta
      obtain ⟨ih1, ih2⟩ := ih (Game.UpdateG m gx gy inp g) hrest2
        (by omega) (by omega) (by omega) (by omega)
      simp only [runG, List.length_cons]
      rw [ih1, ih2, hlen, hta]
      constructor <;> omega
    · have hnc : ¬ (g.particlesToAdd > 0 ∧ g.frameCount + 1 > 0) := fun h => hk h.1
      rw [if_neg hnc] at hlen hta
      obtain ⟨ih1, ih2⟩ := ih (Game.UpdateG m gx gy inp g) hrest2
        (by omega) (by omega) (by omega) (by omega)
      simp only [runG, List.length_cons]
      rw [ih1, ih2, hlen, hta]
      constructor <;> omega

/-- C4. From a state the program reaches (the frame counter, written only by
`frameCount++` from the `0` of `main`, is non-negative and stays below `2^63`) with
`particlesToAdd = k >= 0`, and with inputs that request no spawn (the mouse may be
pressed, on "BOOST UP" or off the spawn buttons): after `n` ticks exactly `min n k`
particles have been appended and `particlesToAdd = k - min n k`, that is, each of the
first `k` ticks appends exactly one particle and decrements the pending count by one,
after `k` ticks there are `k` more particles and none pending, and later ticks append
none.  And for every state and every input, one tick appends at most one particle. -/
theorem spawn_pacing (m : MathFns K) (inps : List (Input K)) (g : Game K)
    (hreq : noSpawnRequests g.boostButton g.showMenu inps = true)
    (hk0 : 0 ≤ g.particlesToAdd) (hk1 : g.particlesToAdd < 9223372036854775808)
    (hf0 : 0 ≤ g.frameCount) (hf1 : g.frameCount + inps.length < 9223372036854775808) :
    (∀ n, n ≤ inps.length →
      (run m (inps.take n) g).particles.length
        = g.particles.length + min n g.particlesToAdd.toNat ∧
      (run m (inps.take n) g).particlesToAdd = g.particlesToAdd - min n g.particlesToAdd.toNat) ∧
    (∀ (inp2 : Input K) (g2 : Game K),
      (Game.Update m inp2 g2).particles.length ≤ g2.particles.length + 1) := by
  constructor
  · intro n hn
    have hl : (inps.take n).length = n := by simp [hn]
    have h := runG_spawn_count m gravityX gravityY (inps.take n) g
      (noSpawnRequests_take _ _ _ n hreq) hk0 hk1 hf0 (by rw [hl]; omega)
    rw [hl] at h
    exact h
  · intro inp2 g2
    have hlen := UpdateG_length m gravityX gravityY inp2 g2
    unfold Game.Update
    rw [hlen]
    split_ifs <;> omega

/-- C4, witness: the state built by `main` with two pending spawns; a press on
"BOOST UP", a press off every button and an idle tick: after the third tick two
particles have been appended and none is pending. -/
theorem spawn_pacing_witness :
    (run ratMath (List.take 3 [pressAt 450 30, pressAt 5 5, idleInput])
        (gameWith [] 2 0)).particles.length
      = (gameWith [] 2 0).particles.length + min 3 (gameWith [] 2 0).particlesToAdd.toNat ∧
    (run ratMath (List.take 3 [pressAt 450 30, pressAt 5 5, idleInput])
        (gameWith [] 2 0)).particlesToAdd
      = (gameWith [] 2 0).particlesToAdd - min 3 (gameWith [] 2 0).particlesToAdd.toNat :=
  (spawn_pacing ratMath [pressAt 450 30, pressAt 5 5, idleInput] (gameWith [] 2 0)
    (by decide) (by decide) (by decide) (by decide) (by decide)).1 3 (by decide)

/-! ## Zero gravity -/

/-- With the identity for rounding, the rounded loop body is the exact one. -/
theorem resolvePairR_id (s : K → K) (e0 : K) (p1 p2 : Particle K) :
    resolvePairR id s e0 p1 p2 = resolvePairE s (F64.fin e0) p1 p2 := by
  have h : ∀ x : F64 K, F64.app id x = x := by intro x; cases x <;> rfl
  unfold resolvePairR resolvePairE
  simp only [h]
  rfl

/-- The passes for a given pair resolver, at the exact resolver, are `collisions`. -/
theorem collisionsWith_resolvePair (s : K → K) (ps : List (Particle K)) :
    collisionsWith (resolvePair s) ps = collisions s ps := rfl

end Lemmas

/-! ## float64 rounding: error bounds -/

section Float

theorem pow2_eq (e : Int) : pow2 e = (2 : ℚ) ^ e := by
  unfold pow2
  split_ifs with h
  · obtain ⟨n, rfl⟩ := Int.eq_ofNat_of_zero_le h
    simp
  · push_neg at h
    obtain ⟨n, hn⟩ := Int.eq_ofNat_of_zero_le (by omega : 0 ≤ -e)
    have he : e = -(n : Int) := by omega
    subst he
    simp

theorem pow2_pos (e : Int) : 0 < pow2 e := by
  rw [pow2_eq]; positivity

theorem bitLen_spec (f n : Nat) (h : n < 2 ^ f) :
    n < 2 ^ bitLen f n ∧ (0 < n → 2 ^ (bitLen f n - 1) ≤ n) := by
  induction f generalizing n with
  | zero =>
    simp at h
    subst h
    simp [bitLen]
  | succ k ih =>
    unfold bitLen
    by_cases h0 : n = 0
    · subst h0; simp
    · simp only [h0, if_false]
      have hk : n / 2 < 2 ^ k := by
        rw [pow_succ] at h
        omega
      obtain ⟨h1, h2⟩ := ih (n / 2) hk
      constructor
      · rw [pow_succ]; omega
      · intro _
        simp only [Nat.add_sub_cancel]
        by_cases hz : n / 2 = 0
        · have : bitLen k (n / 2) = 0 := by
            rw [hz]; cases k <;> simp [bitLen]
          rw [this]; simp; omega
        · have h3 := h2 (Nat.pos_of_ne_zero hz)
          have hb : 0 < bitLen k (n / 2) := by
            by_contra hc
            have : bitLen k (n / 2) = 0 := by omega
            rw [this] at h1
            simp at h1
            exact hz h1
          have : 2 ^ bitLen k (n / 2) = 2 * 2 ^ (bitLen k (n / 2) - 1) := by
            rw [← pow_succ']; congr 1; omega
          omega

theorem bitLen_self (n : Nat) :
    n < 2 ^ bitLen n n ∧ (0 < n → 2 ^ (bitLen n n - 1) ≤ n) :=
  bitLen_spec n n (Nat.lt_two_pow n)

/-- Lower bound of the computed exponent. -/
theorem floorLog2_le (a : ℚ) (ha : 0 < a) : pow2 (floorLog2 a) ≤ a := by
  unfold floorLog2
  dsimp only
  split_ifs with h
  · -- a < 2 ^ e0, show 2 ^ (e0 - 1) ≤ a
    have hnum : 0 < a.num := Rat.num_pos.mpr ha
    obtain ⟨p, hp⟩ := Int.eq_ofNat_of_zero_le (le_of_lt hnum)
    have hp0 : 0 < p := by omega
    have hpt : a.num.toNat = p := by omega
    rw [hpt]
    obtain ⟨_, hlo⟩ := bitLen_self p
    obtain ⟨hhi, _⟩ := bitLen_self a.den
    have hlo := hlo hp0
    have hbp : 0 < bitLen p p := by
      by_contra hc
      have h0 : bitLen p p = 0 := by omega
      have := (bitLen_self p).1
      rw [h0] at this
      omega
    rw [pow2_eq]
    have hexp : ((bitLen p p : Int) - (bitLen a.den a.den : Int) - 1)
        = ((bitLen p p - 1 : Nat) : Int) - (bitLen a.den a.den : Nat) := by omega
    rw [hexp, zpow_sub₀ (by norm_num : (2 : ℚ) ≠ 0), zpow_natCast, zpow_natCast]
    have hden : (0 : ℚ) < a.den := by exact_mod_cast a.den_pos
    have ha' : a = (p : ℚ) / a.den := by
      conv_lhs => rw [← Rat.num_div_den a, hp]
      simp
    have h1 : ((2 : ℚ) ^ (bitLen p p - 1)) ≤ p := by exact_mod_cast hlo
    have h2 : (a.den : ℚ) ≤ 2 ^ bitLen a.den a.den := by exact_mod_cast le_of_lt hhi
    calc (2 : ℚ) ^ (bitLen p p - 1) / 2 ^ bitLen a.den a.den
        ≤ (p : ℚ) / a.den := div_le_div₀ (by positivity) h1 hden h2
      _ = a := ha'.symm
  · exact not_lt.mp h

theorem roundHalfEven_err (t : ℚ) : |(roundHalfEven t : ℚ) - t| ≤ 1 / 2 := by
  have h1 := Int.floor_le t
  have h2 := Int.lt_floor_add_one t
  unfold roundHalfEven
  dsimp only
  rw [abs_le]
  split_ifs <;> push_cast <;> constructor <;> linarith

theorem round64_err (x : ℚ) : |round64 x - x| ≤ u64 * |x| + eta64 := by
  unfold round64
  by_cases hx : x = 0
  · subst hx
    simp [u64, eta64]
  · simp only [hx, if_false]
    have ha : 0 < |x| := abs_pos.mpr hx
    set q : Int := max (floorLog2 |x|) (-1022) - 52 with hq
    have hpq := pow2_pos q
    have hr := roundHalfEven_err (|x| / pow2 q)
    set n : Int := roundHalfEven (|x| / pow2 q) with hn
    have hmain : abs ((n : ℚ) * pow2 q - |x|) ≤ pow2 q / 2 := by
      have : (n : ℚ) * pow2 q - |x| = ((n : ℚ) - |x| / pow2 q) * pow2 q := by
        field_simp
      rw [this, abs_mul, abs_of_pos hpq]
      calc abs ((n : ℚ) - |x| / pow2 q) * pow2 q ≤ 1 / 2 * pow2 q :=
            mul_le_mul_of_nonneg_right hr (le_of_lt hpq)
        _ = pow2 q / 2 := by ring
    have hulp : pow2 q / 2 ≤ u64 * |x| + eta64 := by
      have hfl := floorLog2_le |x| ha
      rw [pow2_eq] at hfl ⊢
      rcases le_total (floorLog2 |x|) (-1022) with hc | hc
      · have : q = -1074 := by rw [hq, max_eq_right hc]; norm_num
        rw [this]
        have h0 : 0 ≤ u64 * |x| := by unfold u64; positivity
        have : (2 : ℚ) ^ (-1074 : Int) / 2 = eta64 := by
          unfold eta64
          rw [zpow_neg]
          norm_num
        linarith
      · have : q = floorLog2 |x| - 52 := by rw [hq, max_eq_left hc]
        rw [this, zpow_sub₀ (by norm_num : (2 : ℚ) ≠ 0)]
        have h0 : (0 : ℚ) ≤ eta64 := by unfold eta64; positivity
        have : (2 : ℚ) ^ floorLog2 |x| / 2 ^ (52 : Int) / 2 = u64 * 2 ^ floorLog2 |x| := by
          unfold u64
          norm_num
          ring
        rw [this]
        have hu : (0 : ℚ) ≤ u64 := by unfold u64; positivity
        nlinarith [mul_le_mul_of_nonneg_left hfl hu]
    split_ifs with hneg
    · have hxa : |x| = -x := abs_of_neg hneg
      have : -((n : ℚ) * pow2 q) - x = -((n : ℚ) * pow2 q - |x|) := by rw [hxa]; ring
      rw [this, abs_neg]
      exact le_trans hmain hulp
    · have hxa : |x| = x := abs_of_nonneg (not_lt.mp hneg)
      have : (n : ℚ) * pow2 q - x = (n : ℚ) * pow2 q - |x| := by rw [hxa]
      rw [this]
      exact le_trans hmain hulp

theorem isqrtAux_spec (n : Nat) (k r : Nat) (h1 : r * r ≤ n)
    (h2 : n < (r + 2 ^ k) * (r + 2 ^ k)) :
    isqrtAux n k r * isqrtAux n k r ≤ n ∧
      n < (isqrtAux n k r + 1) * (isqrtAux n k r + 1) := by
  induction k generalizing r with
  | zero => simpa [isqrtAux] using And.intro h1 h2
  | succ j ih =>
    unfold isqrtAux
    split_ifs with hc
    · apply ih _ hc
      have : r + 2 ^ j + 2 ^ j = r + 2 ^ (j + 1) := by rw [pow_succ]; ring
      rw [this]; exact h2
    · exact ih _ h1 (not_le.mp hc)

theorem isqrt_spec (n : Nat) : isqrt n * isqrt n ≤ n ∧ n < (isqrt n + 1) * (isqrt n + 1) := by
  unfold isqrt
  apply isqrtAux_spec n _ 0 (Nat.zero_le _)
  have h := (bitLen_self n).1
  have h1 : 1 ≤ 2 ^ bitLen n n := Nat.one_le_two_pow
  calc n < 2 ^ bitLen n n := h
    _ = 2 ^ bitLen n n * 1 := (Nat.mul_one _).symm
    _ ≤ 2 ^ bitLen n n * 2 ^ bitLen n n := Nat.mul_le_mul_left _ h1
    _ = (0 + 2 ^ bitLen n n) * (0 + 2 ^ bitLen n n) := by simp

theorem sqrt64_spec (x : ℚ) (hx : 0 < x) :
    0 < sqrt64 x ∧ |sqrt64 x * sqrt64 x - x| ≤ 3 * u64 * x := by
  unfold sqrt64
  simp only [not_le.mpr hx, if_false]
  set t : Int := (105 - floorLog2 x) / 2 with ht
  set y : ℚ := x * pow2 (2 * t) with hy
  have hfl := floorLog2_le x hx
  have hP : 0 < pow2 t := pow2_pos t
  have hPP : pow2 (2 * t) = pow2 t * pow2 t := by
    rw [pow2_eq, pow2_eq, two_mul, zpow_add₀ (by norm_num : (2 : ℚ) ≠ 0)]
  have hPinv : pow2 (-t) = 1 / pow2 t := by
    rw [pow2_eq, pow2_eq, zpow_neg, one_div]
  have hy104 : (2 : ℚ) ^ (104 : Nat) ≤ y := by
    have h2t : (104 : Int) ≤ floorLog2 x + 2 * t := by omega
    have : (2 : ℚ) ^ (104 : Int) ≤ (2 : ℚ) ^ (floorLog2 x + 2 * t) :=
      zpow_le_zpow_right₀ (by norm_num) h2t
    rw [zpow_add₀ (by norm_num : (2 : ℚ) ≠ 0)] at this
    rw [pow2_eq] at hfl
    have h3 : (2 : ℚ) ^ floorLog2 x * 2 ^ (2 * t) ≤ x * 2 ^ (2 * t) :=
      mul_le_mul_of_nonneg_right hfl (by positivity)
    rw [hy, pow2_eq]
    calc (2 : ℚ) ^ (104 : Nat) = (2 : ℚ) ^ (104 : Int) := by norm_cast
      _ ≤ _ := this
      _ ≤ _ := h3
  have hy0 : 0 ≤ y := le_trans (by positivity) hy104
  obtain ⟨hs1, hs2⟩ := isqrt_spec ⌊y⌋.toNat
  set n : Nat := isqrt ⌊y⌋.toNat with hn
  have hfloor0 : 0 ≤ ⌊y⌋ := Int.floor_nonneg.mpr hy0
  have hcast : ((⌊y⌋.toNat : Nat) : ℚ) = (⌊y⌋ : ℚ) := by
    have : ((⌊y⌋.toNat : Nat) : Int) = ⌊y⌋ := Int.toNat_of_nonneg hfloor0
    exact_mod_cast congrArg (fun z : Int => (z : ℚ)) this
  have hlo : (n : ℚ) * n ≤ y := by
    have : ((n * n : Nat) : ℚ) ≤ ((⌊y⌋.toNat : Nat) : ℚ) := by exact_mod_cast hs1
    rw [hcast] at this
    push_cast at this
    exact le_trans this (Int.floor_le y)
  have hhi : y < ((n : ℚ) + 1) * (n + 1) := by
    have h' : ⌊y⌋.toNat + 1 ≤ (n + 1) * (n + 1) := hs2
    have : (((⌊y⌋.toNat + 1 : Nat)) : ℚ) ≤ (((n + 1) * (n + 1) : Nat) : ℚ) := by exact_mod_cast h'
    push_cast at this
    rw [hcast] at this
    exact lt_of_lt_of_le (Int.lt_floor_add_one y) this
  have hn52 : (2 : ℚ) ^ (52 : Nat) ≤ n := by
    by_contra hc
    push_neg at hc
    have hc' : n < 2 ^ 52 := by exact_mod_cast hc
    have h1 : (n : ℚ) + 1 ≤ 2 ^ (52 : Nat) := by exact_mod_cast hc'
    have h0 : (0 : ℚ) ≤ (n : ℚ) + 1 := by positivity
    have : ((n : ℚ) + 1) * (n + 1) ≤ 2 ^ (52 : Nat) * 2 ^ (52 : Nat) :=
      mul_le_mul h1 h1 h0 (by positivity)
    have h104 : (2 : ℚ) ^ (52 : Nat) * 2 ^ (52 : Nat) = 2 ^ (104 : Nat) := by norm_num
    linarith
  have hn0 : (0 : ℚ) ≤ n := Nat.cast_nonneg n
  set r : Nat := (if y < (n : ℚ) * n + n + 1 / 4 then n
      else if (n : ℚ) * n + n + 1 / 4 < y then n + 1
      else if n % 2 = 0 then n else n + 1) with hr
  have hrn : (r = n ∧ y ≤ (n : ℚ) * n + n + 1 / 4) ∨ (r = n + 1 ∧ (n : ℚ) * n + n + 1 / 4 ≤ y) := by
    rw [hr]
    split_ifs with h1 h2 h3
    · exact Or.inl ⟨rfl, le_of_lt h1⟩
    · exact Or.inr ⟨rfl, le_of_lt h2⟩
    · exact Or.inl ⟨rfl, not_lt.mp h2⟩
    · exact Or.inr ⟨rfl, not_lt.mp h1⟩
  have hr52 : (2 : ℚ) ^ (52 : Nat) ≤ r := by
    rcases hrn with ⟨h, _⟩ | ⟨h, _⟩
    · rw [h]; exact hn52
    · rw [h]; push_cast; linarith
  have herr : |(r : ℚ) * r - y| ≤ 3 * u64 * y := by
    have h52 : (2 : ℚ) ^ (52 : Nat) = 4503599627370496 := by norm_num
    rw [h52] at hr52 hn52
    unfold u64
    rw [abs_le]
    rcases hrn with ⟨h, hle⟩ | ⟨h, hge⟩
    · rw [h]
      constructor <;> nlinarith
    · rw [h]
      push_cast
      constructor <;> nlinarith
  have hrpos : (0 : ℚ) < r := lt_of_lt_of_le (by positivity) hr52
  refine ⟨by rw [hPinv]; positivity, ?_⟩
  have hxy : x = y / (pow2 t * pow2 t) := by
    rw [hy, hPP]; field_simp
  have hid : (r : ℚ) * pow2 (-t) * ((r : ℚ) * pow2 (-t)) - x
      = ((r : ℚ) * r - y) / (pow2 t * pow2 t) := by
    rw [hPinv, hxy]; field_simp
  rw [hid, abs_div, abs_of_pos (mul_pos hP hP)]
  conv_rhs => rw [hxy]
  rw [← mul_div_assoc]
  exact div_le_div_of_nonneg_right herr (le_of_lt (mul_pos hP hP))

/-! ## Error analysis of the loop body -/

theorem Rnd.lo {η r x : ℚ} (h : Rnd η r x) : x - (u64 * |x| + η) ≤ r := by
  have := (abs_le.mp h).1; linarith
theorem Rnd.hi {η r x : ℚ} (h : Rnd η r x) : r ≤ x + (u64 * |x| + η) := by
  have := (abs_le.mp h).2; linarith

/-- error of a rounded value whose argument is bounded by `m` -/
theorem Rnd.err_le {η r x m : ℚ} (h : Rnd η r x) (hm : |x| ≤ m) : |r - x| ≤ u64 * m + η := by
  unfold Rnd at h
  have hu : (0 : ℚ) ≤ u64 := by unfold u64; positivity
  have := mul_le_mul_of_nonneg_left hm hu
  linarith

theorem Rnd.abs_le {η r x m : ℚ} (h : Rnd η r x) (hm : |x| ≤ m) : |r| ≤ m + (u64 * m + η) := by
  have h1 := h.err_le hm
  have : |r| ≤ |r - x| + |x| := by
    have := abs_add (r - x) x
    simpa using this
  linarith

theorem abs_mul_le_of {a b ma mb : ℚ} (ha : |a| ≤ ma) (hb : |b| ≤ mb) : |a * b| ≤ ma * mb := by
  rw [abs_mul]
  exact mul_le_mul ha hb (abs_nonneg b) (le_trans (abs_nonneg a) ha)

/-- Step A: the rounded squared distance against the sum of squares of the rounded differences. -/
theorem stepA {η dx dy a b D : ℚ} (hη : 0 ≤ η)
    (ha : Rnd η a (dx * dx)) (hb : Rnd η b (dy * dy)) (hD : Rnd η D (a + b)) :
    |D - (dx * dx + dy * dy)| ≤ 3 * u64 * (dx * dx + dy * dy) + 4 * η := by
  unfold Rnd at *
  rw [abs_mul_self] at ha hb
  have h1 := mul_self_nonneg dx
  have h2 := mul_self_nonneg dy
  have ha' := abs_le.mp ha
  have hb' := abs_le.mp hb
  have hab : |a + b| ≤ (dx * dx + dy * dy) + (u64 * (dx * dx) + η) + (u64 * (dy * dy) + η) := by
    rw [abs_le]; constructor <;> linarith [ha'.1, ha'.2, hb'.1, hb'.2]
  have hu : (0 : ℚ) ≤ u64 := by unfold u64; positivity
  have hD2 : |D - (a + b)| ≤ u64 * ((dx * dx + dy * dy) + (u64 * (dx * dx) + η) + (u64 * (dy * dy) + η)) + η :=
    le_trans hD (by linarith [mul_le_mul_of_nonneg_left hab hu])
  have hD' := abs_le.mp hD2
  unfold u64 at *
  rw [abs_le]
  constructor <;> nlinarith [ha'.1, ha'.2, hb'.1, hb'.2, hD'.1, hD'.2]

theorem u64_nonneg : (0 : ℚ) ≤ u64 := by unfold u64; positivity

/-- the square of a rounded value from below -/
theorem sq_lower {η r x m : ℚ} (hη : 0 ≤ η) (h : Rnd η r x) (hm : |x| ≤ m) :
    (1 - 2 * u64) * (x * x) - 2 * m * η ≤ r * r := by
  unfold Rnd at h
  have hx0 := abs_nonneg x
  have he0 := abs_nonneg (r - x)
  have h1 : -(|x| * |r - x|) ≤ x * (r - x) := by
    have := neg_abs_le (x * (r - x))
    rw [abs_mul] at this
    exact this
  have h2 : |x| * |r - x| ≤ |x| * (u64 * |x| + η) := mul_le_mul_of_nonneg_left h hx0
  have h3 : |x| * |x| = x * x := abs_mul_abs_self x
  have h4 : |x| * η ≤ m * η := mul_le_mul_of_nonneg_right hm hη
  have h5 : r * r = x * x + 2 * (x * (r - x)) + (r - x) * (r - x) := by ring
  have h6 := mul_self_nonneg (r - x)
  have h7 : |x| * (u64 * |x| + η) = u64 * (x * x) + |x| * η := by rw [← h3]; ring
  rw [h7] at h2
  unfold u64 at *
  linarith

/-- Step B: the sum of squares of the rounded differences is at least half the true
squared distance. -/
theorem stepB {η x1 x2 y1 y2 dx dy δ2 : ℚ} (hη : 0 ≤ η)
    (hdx : Rnd η dx (x1 - x2)) (hdy : Rnd η dy (y1 - y2))
    (hbx : |x1 - x2| ≤ 2080) (hby : |y1 - y2| ≤ 2080)
    (hsep : δ2 ≤ (x1 - x2) * (x1 - x2) + (y1 - y2) * (y1 - y2))
    (hηδ : 2 ^ 14 * η ≤ u64 * δ2) :
    δ2 / 2 ≤ dx * dx + dy * dy := by
  have h1 := sq_lower hη hdx hbx
  have h2 := sq_lower hη hdy hby
  have hδ : 0 ≤ δ2 := by
    have : 0 ≤ u64 * δ2 := le_trans (by positivity) hηδ
    unfold u64 at this
    by_contra hc
    push_neg at hc
    nlinarith
  unfold u64 at *
  nlinarith [mul_self_nonneg (x1 - x2), mul_self_nonneg (y1 - y2)]

/-- Step C: the computed distance against the sum of squares. -/
theorem stepC {η S D d : ℚ} (hS : 0 < S) (hηS : 2 ^ 12 * η ≤ u64 * S)
    (hA : |D - S| ≤ 3 * u64 * S + 4 * η) (hd : |d * d - D| ≤ 3 * u64 * D) :
    0 < D ∧ (1 - 7 * u64) * S ≤ d * d ∧ d * d ≤ (1 + 7 * u64) * S := by
  have hA' := abs_le.mp hA
  have hd' := abs_le.mp hd
  unfold u64 at *
  refine ⟨by nlinarith, by nlinarith, by nlinarith⟩

/-- Step D: a rounded difference is at most 1.01 times the computed distance. -/
theorem stepD {S d dx : ℚ} (hd0 : 0 < d) (hdx : dx * dx ≤ S)
    (hlo : (1 - 7 * u64) * S ≤ d * d) : |dx / d| ≤ 101 / 100 := by
  rw [abs_div, abs_of_pos hd0, div_le_iff₀ hd0]
  apply abs_le_of_sq_le_sq _ (by positivity)
  unfold u64 at hlo
  nlinarith

/-- Step E: the computed distance of a pair that passes the overlap test. -/
theorem stepE {D d : ℚ} (hd0 : 0 < d) (hlt : D < 100)
    (hd : |d * d - D| ≤ 3 * u64 * D) : d ≤ 1001 / 100 ∧ |10 - d| ≤ 10 := by
  have hd' := abs_le.mp hd
  unfold u64 at *
  have h1 : d ≤ 1001 / 100 := by
    by_contra hc
    push_neg at hc
    nlinarith
  refine ⟨h1, ?_⟩
  rw [abs_le]
  constructor <;> linarith

/-- error of a rounded value as a multiple of the unit roundoff, for a bounded argument -/
theorem Rnd.err_num {η r x m c : ℚ} (h : Rnd η r x) (hηs : η ≤ u64) (hm : |x| ≤ m)
    (hc : m + 1 ≤ c) : |r - x| ≤ c / 9007199254740992 := by
  have h1 := h.err_le hm
  unfold u64 at h1 hηs
  linarith

theorem Rnd.abs_num {η r x m c : ℚ} (h : Rnd η r x) (hηs : η ≤ u64) (hm : |x| ≤ m)
    (hm1 : m ≤ 2 ^ 20) (hc : m + 1 / 2 ^ 30 ≤ c) : |r| ≤ c := by
  have h1 := h.abs_le hm
  unfold u64 at h1 hηs
  norm_num at hm1 hc
  linarith

/-- Step F: the computed difference of the new X coordinates against ten times the
normalised rounded difference, and how far each particle moves. -/
theorem stepF {η x1 x2 dx d nx ov px mx X1 X2 : ℚ} (hηs : η ≤ u64)
    (hb1 : |x1| ≤ 1040) (hb2 : |x2| ≤ 1040)
    (hd0 : 0 < d) (hq : |dx / d| ≤ 101 / 100) (hdm : |10 - d| ≤ 10)
    (hdx : Rnd η dx (x1 - x2)) (hnx : Rnd η nx (dx / d)) (hov : Rnd η ov (10 - d))
    (hpx : Rnd η px (nx * ov)) (hmx : Rnd η mx (px * (1 / 2)))
    (hX1 : Rnd η X1 (x1 + mx)) (hX2 : Rnd η X2 (x2 - mx)) :
    |(X1 - X2) - 10 * (dx / d)| ≤ 4300 * u64 ∧ |X1 - x1| ≤ 6 ∧ |X2 - x2| ≤ 6 := by
  have hbx : |x1 - x2| ≤ 2080 := by
    have := abs_sub x1 x2
    linarith
  have e1 := hdx.err_num hηs hbx (c := 2081) (by norm_num)
  have e4 := hnx.err_num hηs hq (c := 3) (by norm_num)
  have hnxb := hnx.abs_num hηs hq (c := 102 / 100) (by norm_num) (by norm_num)
  have e5 := hov.err_num hηs hdm (c := 11) (by norm_num)
  have hovb := hov.abs_num hηs hdm (c := 1001 / 100) (by norm_num) (by norm_num)
  have hprod : |nx * ov| ≤ 103 / 10 := by
    have := abs_mul_le_of hnxb hovb
    linarith
  have e6 := hpx.err_num hηs hprod (c := 12) (by norm_num)
  have hpxb := hpx.abs_num hηs hprod (c := 1031 / 100) (by norm_num) (by norm_num)
  have hhalf : |px * (1 / 2)| ≤ 5155 / 1000 := by
    rw [abs_mul, abs_of_pos (by norm_num : (0 : ℚ) < 1 / 2)]
    linarith
  have e7 := hmx.err_num hηs hhalf (c := 7) (by norm_num)
  have hmxb := hmx.abs_num hηs hhalf (c := 52 / 10) (by norm_num) (by norm_num)
  have hs1 : |x1 + mx| ≤ 10452 / 10 := by
    have := abs_add x1 mx
    linarith
  have hs2 : |x2 - mx| ≤ 10452 / 10 := by
    have := abs_sub x2 mx
    linarith
  have e8 := hX1.err_num hηs hs1 (c := 1047) (by norm_num)
  have e9 := hX2.err_num hηs hs2 (c := 1047) (by norm_num)
  have hq5 := abs_mul_le_of hq e5
  have h4d := abs_mul_le_of e4 hdm
  have h45 := abs_mul_le_of e4 e5
  have hdne : d ≠ 0 := ne_of_gt hd0
  have hid : (X1 - X2) - 10 * (dx / d) =
      (X1 - (x1 + mx)) - (X2 - (x2 - mx)) + 2 * (mx - px * (1 / 2)) + (px - nx * ov)
        + (nx - dx / d) * (ov - (10 - d)) + (nx - dx / d) * (10 - d)
        + dx / d * (ov - (10 - d)) - (dx - (x1 - x2)) := by
    field_simp
    ring
  refine ⟨?_, ?_, ?_⟩
  · rw [hid]
    have a1 := abs_le.mp e1
    have a6 := abs_le.mp e6
    have a7 := abs_le.mp e7
    have a8 := abs_le.mp e8
    have a9 := abs_le.mp e9
    have a45 := abs_le.mp h45
    have a4d := abs_le.mp h4d
    have aq5 := abs_le.mp hq5
    unfold u64
    rw [abs_le]
    constructor <;> linarith
  · have : X1 - x1 = (X1 - (x1 + mx)) + mx := by ring
    rw [this]
    have := abs_add (X1 - (x1 + mx)) mx
    linarith
  · have : X2 - x2 = (X2 - (x2 - mx)) - mx := by ring
    rw [this]
    have := abs_sub (X2 - (x2 - mx)) mx
    linarith

/-- Step G: two nearly orthonormal components, each perturbed by a small error. -/
theorem stepG {qx qy Ex Ey : ℚ} (hq : 1 - 7 * u64 ≤ qx * qx + qy * qy)
    (hqx : |qx| ≤ 101 / 100) (hqy : |qy| ≤ 101 / 100)
    (hEx : |Ex| ≤ 4300 * u64) (hEy : |Ey| ≤ 4300 * u64) :
    100 - 2 / 10 ^ 11 ≤ (10 * qx + Ex) * (10 * qx + Ex) + (10 * qy + Ey) * (10 * qy + Ey) := by
  have hx := abs_le.mp (abs_mul_le_of hqx hEx)
  have hy := abs_le.mp (abs_mul_le_of hqy hEy)
  unfold u64 at hq hx hy
  nlinarith [mul_self_nonneg Ex, mul_self_nonneg Ey]

/-- the square of a rounded value from above -/
theorem sq_upper {η r x m : ℚ} (hη : 0 ≤ η) (hηs : η ≤ u64) (h : Rnd η r x) (hm : |x| ≤ m) :
    r * r ≤ (1 + 3 * u64) * (x * x) + 3 * m * η + η := by
  unfold Rnd at h
  have hx0 := abs_nonneg x
  have he0 := abs_nonneg (r - x)
  have h1 : x * (r - x) ≤ |x| * |r - x| := by
    have := le_abs_self (x * (r - x))
    rw [abs_mul] at this
    exact this
  have h2 : |x| * |r - x| ≤ |x| * (u64 * |x| + η) := mul_le_mul_of_nonneg_left h hx0
  have h3 : |x| * |x| = x * x := abs_mul_abs_self x
  have h4 : |x| * η ≤ m * η := mul_le_mul_of_nonneg_right hm hη
  have h5 : r * r = x * x + 2 * (x * (r - x)) + (r - x) * (r - x) := by ring
  have h6 : (r - x) * (r - x) = |r - x| * |r - x| := (abs_mul_abs_self (r - x)).symm
  have hu := u64_nonneg
  have hb0 : 0 ≤ u64 * |x| + η := by positivity
  have h7 : |r - x| * |r - x| ≤ (u64 * |x| + η) * (u64 * |x| + η) := mul_le_mul h h he0 hb0
  have h8 : (u64 * |x| + η) * (u64 * |x| + η) = u64 * u64 * (x * x) + 2 * u64 * (|x| * η) + η * η := by
    rw [← h3]; ring
  have h9 : |x| * (u64 * |x| + η) = u64 * (x * x) + |x| * η := by rw [← h3]; ring
  have h10 : η * η ≤ η * u64 := mul_le_mul_of_nonneg_left hηs hη
  have hm0 : 0 ≤ m := le_trans hx0 hm
  have h11 : 0 ≤ m * η := mul_nonneg hm0 hη
  have h12 : 0 ≤ |x| * η := mul_nonneg hx0 hη
  rw [h8] at h7
  rw [h9] at h2
  have hxx := mul_self_nonneg x
  unfold u64 at *
  nlinarith

/-- The rounded squared distance is positive when the centres are apart. -/
theorem D_pos {η x1 x2 y1 y2 dx dy a b D δ2 : ℚ} (hη : 0 ≤ η) (hδ0 : 0 < δ2)
    (hηδ : 2 ^ 14 * η ≤ u64 * δ2)
    (hbx : |x1 - x2| ≤ 2080) (hby : |y1 - y2| ≤ 2080)
    (hsep : δ2 ≤ (x1 - x2) * (x1 - x2) + (y1 - y2) * (y1 - y2))
    (hdx : Rnd η dx (x1 - x2)) (hdy : Rnd η dy (y1 - y2))
    (ha : Rnd η a (dx * dx)) (hb : Rnd η b (dy * dy)) (hD : Rnd η D (a + b)) :
    0 < dx * dx + dy * dy ∧ 2 ^ 12 * η ≤ u64 * (dx * dx + dy * dy) ∧ 0 < D := by
  have hB := stepB hη hdx hdy hbx hby hsep hηδ
  have hA := abs_le.mp (stepA hη ha hb hD)
  have hS : 0 < dx * dx + dy * dy := by linarith
  have hηS : 2 ^ 12 * η ≤ u64 * (dx * dx + dy * dy) := by
    unfold u64 at *
    norm_num at hηδ ⊢
    linarith
  refine ⟨hS, hηS, ?_⟩
  unfold u64 at *
  norm_num at hηS
  nlinarith

/-- A pair that fails the rounded overlap test is at least `10 - 1e-11` apart. -/
theorem far_of_not_lt {η x1 x2 y1 y2 dx dy a b D : ℚ} (hη : 0 ≤ η) (hηs : 2 ^ 60 * η ≤ u64)
    (hbx : |x1 - x2| ≤ 2080) (hby : |y1 - y2| ≤ 2080)
    (hdx : Rnd η dx (x1 - x2)) (hdy : Rnd η dy (y1 - y2))
    (ha : Rnd η a (dx * dx)) (hb : Rnd η b (dy * dy)) (hD : Rnd η D (a + b))
    (hge : 100 ≤ D) :
    100 - 2 / 10 ^ 11 ≤ (x1 - x2) * (x1 - x2) + (y1 - y2) * (y1 - y2) := by
  have hη1 : η ≤ u64 := by
    unfold u64 at *
    norm_num at hηs ⊢
    linarith
  have hA := abs_le.mp (stepA hη ha hb hD)
  have h1 := sq_upper hη hη1 hdx hbx
  have h2 := sq_upper hη hη1 hdy hby
  have hxx := mul_self_nonneg (x1 - x2)
  have hyy := mul_self_nonneg (y1 - y2)
  unfold u64 at *
  norm_num at hηs
  nlinarith

/-- The numeric core of one resolution of an overlapping pair in rounded arithmetic. -/
theorem sep_core {η δ2 x1 y1 x2 y2 dx dy a b D d nx ny ov px py mx my X1 Y1 X2 Y2 : ℚ}
    (hη0 : 0 ≤ η) (hηs : η ≤ u64) (hδ0 : 0 < δ2) (hηδ : 2 ^ 14 * η ≤ u64 * δ2)
    (hx1 : |x1| ≤ 1040) (hy1 : |y1| ≤ 1040) (hx2 : |x2| ≤ 1040) (hy2 : |y2| ≤ 1040)
    (hsep : δ2 ≤ (x1 - x2) * (x1 - x2) + (y1 - y2) * (y1 - y2))
    (hdx : Rnd η dx (x1 - x2)) (hdy : Rnd η dy (y1 - y2))
    (ha : Rnd η a (dx * dx)) (hb : Rnd η b (dy * dy)) (hD : Rnd η D (a + b))
    (hlt : D < 100) (hd0 : 0 < d) (hd : |d * d - D| ≤ 3 * u64 * D)
    (hnx : Rnd η nx (dx / d)) (hny : Rnd η ny (dy / d)) (hov : Rnd η ov (10 - d))
    (hpx : Rnd η px (nx * ov)) (hpy : Rnd η py (ny * ov))
    (hmx : Rnd η mx (px * (1 / 2))) (hmy : Rnd η my (py * (1 / 2)))
    (hX1 : Rnd η X1 (x1 + mx)) (hX2 : Rnd η X2 (x2 - mx))
    (hY1 : Rnd η Y1 (y1 + my)) (hY2 : Rnd η Y2 (y2 - my)) :
    100 - 2 / 10 ^ 11 ≤ (X1 - X2) * (X1 - X2) + (Y1 - Y2) * (Y1 - Y2) ∧
      |X1 - x1| ≤ 6 ∧ |X2 - x2| ≤ 6 ∧ |Y1 - y1| ≤ 6 ∧ |Y2 - y2| ≤ 6 := by
  have hbx : |x1 - x2| ≤ 2080 := by have := abs_sub x1 x2; linarith
  have hby : |y1 - y2| ≤ 2080 := by have := abs_sub y1 y2; linarith
  obtain ⟨hS, hηS, hD0⟩ := D_pos hη0 hδ0 hηδ hbx hby hsep hdx hdy ha hb hD
  obtain ⟨_, hlo, hhi⟩ := stepC hS hηS (stepA hη0 ha hb hD) hd
  obtain ⟨hd10, hdm⟩ := stepE hd0 hlt hd
  have hqx := stepD hd0 (by linarith [mul_self_nonneg dy] : dx * dx ≤ dx * dx + dy * dy) hlo
  have hqy := stepD hd0 (by linarith [mul_self_nonneg dx] : dy * dy ≤ dx * dx + dy * dy) hlo
  obtain ⟨hEx, hmX1, hmX2⟩ := stepF hηs hx1 hx2 hd0 hqx hdm hdx hnx hov hpx hmx hX1 hX2
  obtain ⟨hEy, hmY1, hmY2⟩ := stepF hηs hy1 hy2 hd0 hqy hdm hdy hny hov hpy hmy hY1 hY2
  have hdd : 0 < d * d := mul_pos hd0 hd0
  have hq : 1 - 7 * u64 ≤ dx / d * (dx / d) + dy / d * (dy / d) := by
    have : dx / d * (dx / d) + dy / d * (dy / d) = (dx * dx + dy * dy) / (d * d) := by
      field_simp
    rw [this, le_div_iff₀ hdd]
    unfold u64 at *
    nlinarith
  have hG := stepG hq hqx hqy hEx hEy
  refine ⟨?_, hmX1, hmX2, hmY1, hmY2⟩
  have e1 : X1 - X2 = 10 * (dx / d) + (X1 - X2 - 10 * (dx / d)) := by ring
  have e2 : Y1 - Y2 = 10 * (dy / d) + (Y1 - Y2 - 10 * (dy / d)) := by ring
  rw [e1, e2]
  exact hG

/-- sum of two bounded quantities -/
theorem abs_add_le_of {a b ma mb : ℚ} (ha : |a| ≤ ma) (hb : |b| ≤ mb) : |a + b| ≤ ma + mb :=
  le_trans (abs_add a b) (add_le_add ha hb)

theorem abs_sub_le_of {a b ma mb : ℚ} (ha : |a| ≤ ma) (hb : |b| ≤ mb) : |a - b| ≤ ma + mb :=
  le_trans (abs_sub a b) (add_le_add ha hb)

/-- The normal component of a velocity as the loop computes it, against the exact dot
product with the computed normal. -/
theorem dot_core {η nx ny u w pu pw a : ℚ} (hηs : η ≤ u64)
    (hnx : |nx| ≤ 102 / 100) (hny : |ny| ≤ 102 / 100) (hu : |u| ≤ 1024) (hw : |w| ≤ 1024)
    (hpu : Rnd η pu (u * nx)) (hpw : Rnd η pw (w * ny)) (ha : Rnd η a (pu + pw)) :
    |a - (u * nx + w * ny)| ≤ 4182 / 9007199254740992 ∧ |a| ≤ 20891 / 10 ∧
      |u * nx + w * ny| ≤ 2089 := by
  have m1 : |u * nx| ≤ 104448 / 100 := by have := abs_mul_le_of hu hnx; linarith
  have m2 : |w * ny| ≤ 104448 / 100 := by have := abs_mul_le_of hw hny; linarith
  have e1 := hpu.err_num hηs m1 (c := 1046) (by norm_num)
  have e2 := hpw.err_num hηs m2 (c := 1046) (by norm_num)
  have b1 := hpu.abs_num hηs m1 (c := 10445 / 10) (by norm_num) (by norm_num)
  have b2 := hpw.abs_num hηs m2 (c := 10445 / 10) (by norm_num) (by norm_num)
  have m3 := abs_add_le_of b1 b2
  have e3 := ha.err_num hηs m3 (c := 2090) (by norm_num)
  have b3 := ha.abs_num hηs m3 (c := 20891 / 10) (by norm_num) (by norm_num)
  refine ⟨?_, b3, by have := abs_add_le_of m1 m2; linarith⟩
  have hid : a - (u * nx + w * ny) = (a - (pu + pw)) + (pu - u * nx) + (pw - w * ny) := by ring
  rw [hid]
  have := abs_add_le_of (abs_add_le_of e3 e1) e2
  linarith

/-- The new normal speed as the loop computes it, against the restitution-weighted
average of the exact normal components. -/
theorem newspeed_core {η e0 c1 c2 a1 v1 a2 v2 t1 t2 s1 vn : ℚ} (hηs : η ≤ u64)
    (he0 : 0 ≤ e0) (he1 : e0 ≤ 1)
    (hc1 : Rnd η c1 (1 - e0)) (hc2 : Rnd η c2 (1 + e0))
    (hA1 : |a1 - v1| ≤ 4182 / 9007199254740992) (hb1 : |a1| ≤ 20891 / 10) (hv1 : |v1| ≤ 2089)
    (hA2 : |a2 - v2| ≤ 4182 / 9007199254740992) (hb2 : |a2| ≤ 20891 / 10) (hv2 : |v2| ≤ 2089)
    (ht1 : Rnd η t1 (a1 * c1)) (ht2 : Rnd η t2 (a2 * c2)) (hs1 : Rnd η s1 (t1 + t2))
    (hvn : Rnd η vn (s1 / 2)) :
    |vn - (v1 * (1 - e0) + v2 * (1 + e0)) / 2| ≤ 21007 / 9007199254740992 ∧
      |vn| ≤ 31553 / 10 ∧ |(v1 * (1 - e0) + v2 * (1 + e0)) / 2| ≤ 3135 := by
  have k1 : |1 - e0| ≤ 1 := by rw [abs_le]; constructor <;> linarith
  have k2 : |1 + e0| ≤ 2 := by rw [abs_le]; constructor <;> linarith
  have ec1 := hc1.err_num hηs k1 (c := 2) (by norm_num)
  have ec2 := hc2.err_num hηs k2 (c := 3) (by norm_num)
  have bc1 := hc1.abs_num hηs k1 (c := 101 / 100) (by norm_num) (by norm_num)
  have bc2 := hc2.abs_num hηs k2 (c := 201 / 100) (by norm_num) (by norm_num)
  have m1 : |a1 * c1| ≤ 2110 := by have := abs_mul_le_of hb1 bc1; linarith
  have m2 : |a2 * c2| ≤ 4200 := by have := abs_mul_le_of hb2 bc2; linarith
  have et1 := ht1.err_num hηs m1 (c := 2111) (by norm_num)
  have et2 := ht2.err_num hηs m2 (c := 4201) (by norm_num)
  have bt1 := ht1.abs_num hηs m1 (c := 21101 / 10) (by norm_num) (by norm_num)
  have bt2 := ht2.abs_num hηs m2 (c := 42001 / 10) (by norm_num) (by norm_num)
  have m3 := abs_add_le_of bt1 bt2
  have es := hs1.err_num hηs m3 (c := 6312) (by norm_num)
  have bs := hs1.abs_num hηs m3 (c := 63103 / 10) (by norm_num) (by norm_num)
  have m4 : |s1 / 2| ≤ 31552 / 10 := by
    rw [abs_div, abs_of_pos (by norm_num : (0 : ℚ) < 2)]
    linarith
  have ev := hvn.err_num hηs m4 (c := 3157) (by norm_num)
  have bv := hvn.abs_num hηs m4 (c := 31553 / 10) (by norm_num) (by norm_num)
  -- products of errors with magnitudes
  have p1 := abs_mul_le_of hA1 bc1
  have p2 := abs_mul_le_of hv1 ec1
  have p3 := abs_mul_le_of hA2 bc2
  have p4 := abs_mul_le_of hv2 ec2
  have q1 := abs_mul_le_of hv1 k1
  have q2 := abs_mul_le_of hv2 k2
  refine ⟨?_, bv, ?_⟩
  · have hid : vn - (v1 * (1 - e0) + v2 * (1 + e0)) / 2
        = (vn - s1 / 2) + ((s1 - (t1 + t2)) + (t1 - a1 * c1) + (t2 - a2 * c2)
            + (a1 - v1) * c1 + v1 * (c1 - (1 - e0)) + (a2 - v2) * c2 + v2 * (c2 - (1 + e0))) / 2 := by
      ring
    rw [hid]
    have a1' := abs_le.mp ev
    have a2' := abs_le.mp es
    have a3' := abs_le.mp et1
    have a4' := abs_le.mp et2
    have a5' := abs_le.mp p1
    have a6' := abs_le.mp p2
    have a7' := abs_le.mp p3
    have a8' := abs_le.mp p4
    rw [abs_le]
    constructor <;> linarith
  · have hid : (v1 * (1 - e0) + v2 * (1 + e0)) / 2 = (v1 * (1 - e0)) / 2 + (v2 * (1 + e0)) / 2 := by
      ring
    rw [hid]
    have a1' := abs_le.mp q1
    have a2' := abs_le.mp q2
    rw [abs_le]
    constructor <;> linarith

/-- One velocity component after the update, against the exact update along the
computed normal. -/
theorem update_core {η n u a1 v1 vn ideal δ dv U : ℚ} (hηs : η ≤ u64)
    (hn : |n| ≤ 102 / 100) (hu : |u| ≤ 1024)
    (hA1 : |a1 - v1| ≤ 4182 / 9007199254740992) (hb1 : |a1| ≤ 20891 / 10)
    (hV : |vn - ideal| ≤ 21007 / 9007199254740992) (hbv : |vn| ≤ 31553 / 10)
    (hδ : Rnd η δ (vn - a1)) (hdv : Rnd η dv (δ * n)) (hU : Rnd η U (u + dv)) :
    |U - (u + (ideal - v1) * n)| ≤ 43000 * u64 := by
  have m1 := abs_sub_le_of hbv hb1
  have e1 := hδ.err_num hηs m1 (c := 5246) (by norm_num)
  have b1 := hδ.abs_num hηs m1 (c := 52445 / 10) (by norm_num) (by norm_num)
  have m2 : |δ * n| ≤ 5350 := by have := abs_mul_le_of b1 hn; linarith
  have e2 := hdv.err_num hηs m2 (c := 5351) (by norm_num)
  have b2 := hdv.abs_num hηs m2 (c := 53501 / 10) (by norm_num) (by norm_num)
  have m3 := abs_add_le_of hu b2
  have e3 := hU.err_num hηs m3 (c := 6376) (by norm_num)
  have hd : |δ - (ideal - v1)| ≤ 30435 / 9007199254740992 := by
    have hid : δ - (ideal - v1) = (δ - (vn - a1)) + (vn - ideal) - (a1 - v1) := by ring
    rw [hid]
    have := abs_sub_le_of (abs_add_le_of e1 hV) hA1
    linarith
  have p := abs_mul_le_of hd hn
  have hid : U - (u + (ideal - v1) * n) = (U - (u + dv)) + (dv - δ * n) + (δ - (ideal - v1)) * n := by
    ring
  rw [hid]
  have := abs_add_le_of (abs_add_le_of e3 e2) p
  unfold u64
  linarith

/-- The computed normal is a unit vector up to rounding. -/
theorem normal_core {η S d dx dy nx ny : ℚ} (hηs : η ≤ u64) (hd0 : 0 < d)
    (hS : S = dx * dx + dy * dy)
    (hlo : (1 - 7 * u64) * S ≤ d * d) (hhi : d * d ≤ (1 + 7 * u64) * S)
    (hqx : |dx / d| ≤ 101 / 100) (hqy : |dy / d| ≤ 101 / 100)
    (hnx : Rnd η nx (dx / d)) (hny : Rnd η ny (dy / d)) :
    |nx| ≤ 102 / 100 ∧ |ny| ≤ 102 / 100 ∧ |nx * nx + ny * ny - 1| ≤ 21 * u64 := by
  have ex := hnx.err_num hηs hqx (c := 3) (by norm_num)
  have ey := hny.err_num hηs hqy (c := 3) (by norm_num)
  have bx := hnx.abs_num hηs hqx (c := 102 / 100) (by norm_num) (by norm_num)
  have by1 := hny.abs_num hηs hqy (c := 102 / 100) (by norm_num) (by norm_num)
  refine ⟨bx, by1, ?_⟩
  have hdd : 0 < d * d := mul_pos hd0 hd0
  have hqq : dx / d * (dx / d) + dy / d * (dy / d) = S / (d * d) := by
    rw [hS]; field_simp
  have hq1 : 1 - 7 * u64 ≤ S / (d * d) := by
    rw [le_div_iff₀ hdd]
    unfold u64 at *
    nlinarith
  have hq2 : S / (d * d) ≤ 1 + 8 * u64 := by
    rw [div_le_iff₀ hdd]
    unfold u64 at *
    nlinarith
  have p1 := abs_le.mp (abs_mul_le_of hqx ex)
  have p2 := abs_le.mp (abs_mul_le_of hqy ey)
  have p3 := abs_le.mp (abs_mul_le_of ex ex)
  have p4 := abs_le.mp (abs_mul_le_of ey ey)
  have hid : nx * nx + ny * ny - 1 = (dx / d * (dx / d) + dy / d * (dy / d) - 1)
      + 2 * (dx / d * (nx - dx / d)) + 2 * (dy / d * (ny - dy / d))
      + (nx - dx / d) * (nx - dx / d) + (ny - dy / d) * (ny - dy / d) := by ring
  rw [hid, hqq]
  unfold u64 at *
  rw [abs_le]
  constructor <;> linarith

/-- Components of the updated velocity along and across the computed normal. -/
theorem along_across {nx ny u w U W v ideal E : ℚ}
    (hnx : |nx| ≤ 102 / 100) (hny : |ny| ≤ 102 / 100)
    (hN : |nx * nx + ny * ny - 1| ≤ 21 * u64)
    (hv : v = u * nx + w * ny) (hi : |ideal - v| ≤ 5224)
    (hU : |U - (u + (ideal - v) * nx)| ≤ E) (hW : |W - (w + (ideal - v) * ny)| ≤ E) :
    |(U * nx + W * ny) - ideal| ≤ 5224 * (21 * u64) + 3 * E ∧
      |(U * (-ny) + W * nx) - (u * (-ny) + w * nx)| ≤ 3 * E := by
  have hE : 0 ≤ E := le_trans (abs_nonneg _) hU
  have p1 := abs_le.mp (abs_mul_le_of hi hN)
  have p2 := abs_le.mp (abs_mul_le_of hU hnx)
  have p3 := abs_le.mp (abs_mul_le_of hW hny)
  have p4 := abs_le.mp (abs_mul_le_of hU hny)
  have p5 := abs_le.mp (abs_mul_le_of hW hnx)
  constructor
  · have hid : (U * nx + W * ny) - ideal = (ideal - v) * (nx * nx + ny * ny - 1)
        + (U - (u + (ideal - v) * nx)) * nx + (W - (w + (ideal - v) * ny)) * ny := by
      rw [hv]; ring
    rw [hid, abs_le]
    constructor <;> linarith
  · have hid : (U * (-ny) + W * nx) - (u * (-ny) + w * nx)
        = -((U - (u + (ideal - v) * nx)) * ny) + (W - (w + (ideal - v) * ny)) * nx := by
      ring
    rw [hid, abs_le]
    constructor <;> linarith

/-- The coefficient of a velocity `c * (Δx, Δy)` of bounded components, for centres at
least `2^-500` apart. -/
theorem coeff_bound {c Δx Δy : ℚ} (hsep : 1 / 2 ^ 1000 ≤ Δx * Δx + Δy * Δy)
    (hu : |c * Δx| ≤ 1024) (hw : |c * Δy| ≤ 1024) : |c| ≤ 2 ^ 511 := by
  apply abs_le_of_sq_le_sq _ (by positivity)
  have h1 : (c * Δx) * (c * Δx) ≤ 1024 * 1024 := by
    have := abs_mul_le_of hu hu
    rw [abs_mul_self] at this
    exact this
  have h2 : (c * Δy) * (c * Δy) ≤ 1024 * 1024 := by
    have := abs_mul_le_of hw hw
    rw [abs_mul_self] at this
    exact this
  have h3 : c * c * (1 / 2 ^ 1000) ≤ c * c * (Δx * Δx + Δy * Δy) :=
    mul_le_mul_of_nonneg_left hsep (mul_self_nonneg c)
  have h4 : c * c * (Δx * Δx + Δy * Δy) = (c * Δx) * (c * Δx) + (c * Δy) * (c * Δy) := by ring
  have h5 : c * c * (1 / 2 ^ 1000) ≤ 2 * (1024 * 1024) := by linarith
  have h6 : c ^ 2 ≤ 2 * (1024 * 1024) * 2 ^ 1000 := by
    have : c * c = c * c * (1 / 2 ^ 1000) * 2 ^ 1000 := by field_simp
    rw [sq, this]
    exact mul_le_mul_of_nonneg_right h5 (by positivity)
  calc c ^ 2 ≤ 2 * (1024 * 1024) * 2 ^ 1000 := h6
    _ ≤ (2 ^ 511) ^ 2 := by norm_num

/-- One component of a velocity `c * (Δx, Δy)` against the computed distance times the
computed normal. -/
theorem parallel_core {η c Δ dh d n : ℚ} (hη0 : 0 ≤ η) (hcη : |c| * η ≤ u64 / 2 ^ 20)
    (hd0 : 0 < d) (hd10 : d ≤ 1001 / 100) (hu : |c * Δ| ≤ 1024)
    (hdh : Rnd η dh Δ) (hn : Rnd η n (dh / d)) :
    |c * (d * n - Δ)| ≤ 2051 * u64 := by
  unfold Rnd at hdh hn
  have hc0 := abs_nonneg c
  have hu0 := u64_nonneg
  -- c * (dh - Δ)
  have h1 : |c * (dh - Δ)| ≤ u64 * |c * Δ| + |c| * η := by
    rw [abs_mul]
    have := mul_le_mul_of_nonneg_left hdh hc0
    have e : |c| * (u64 * |Δ| + η) = u64 * |c * Δ| + |c| * η := by rw [abs_mul]; ring
    linarith
  have h1' : |c * (dh - Δ)| ≤ 1025 * u64 := by
    have := mul_le_mul_of_nonneg_left hu hu0
    unfold u64 at *
    linarith
  -- c * dh
  have h2 : |c * dh| ≤ 1025 := by
    have e : c * dh = c * Δ + c * (dh - Δ) := by ring
    rw [e]
    have := abs_add_le_of hu h1'
    unfold u64 at this
    linarith
  -- c * d * (n - dh / d)
  have h3 : |c * (d * (n - dh / d))| ≤ u64 * |c * dh| + d * (|c| * η) := by
    rw [abs_mul, abs_mul, abs_of_pos hd0]
    have := mul_le_mul_of_nonneg_left hn (mul_nonneg hc0 (le_of_lt hd0))
    have e : |c| * d * (u64 * |dh / d| + η) = u64 * |c * dh| + d * (|c| * η) := by
      rw [abs_div, abs_of_pos hd0, abs_mul]
      field_simp
      ring
    have e2 : |c| * (d * |n - dh / d|) = |c| * d * |n - dh / d| := by ring
    rw [e2]
    linarith
  have h3' : |c * (d * (n - dh / d))| ≤ 1026 * u64 := by
    have a1 := mul_le_mul_of_nonneg_left h2 hu0
    have a2 : d * (|c| * η) ≤ 1001 / 100 * (u64 / 2 ^ 20) :=
      mul_le_mul hd10 hcη (mul_nonneg hc0 hη0) (by norm_num)
    unfold u64 at *
    linarith
  have hid : c * (d * n - Δ) = c * (d * (n - dh / d)) + c * (dh - Δ) := by
    field_simp
    ring
  rw [hid]
  have := abs_add_le_of h3' h1'
  linarith

/-- A velocity `c * (Δx, Δy)` along the line of centres is its own component along the
computed normal, up to rounding. -/
theorem headon_core {η c Δx Δy dxh dyh d nx ny : ℚ} (hη0 : 0 ≤ η)
    (hcη : |c| * η ≤ u64 / 2 ^ 20) (hd0 : 0 < d) (hd10 : d ≤ 1001 / 100)
    (hu : |c * Δx| ≤ 1024) (hw : |c * Δy| ≤ 1024)
    (hdx : Rnd η dxh Δx) (hdy : Rnd η dyh Δy)
    (hnx : Rnd η nx (dxh / d)) (hny : Rnd η ny (dyh / d))
    (bnx : |nx| ≤ 102 / 100) (bny : |ny| ≤ 102 / 100)
    (hN : |nx * nx + ny * ny - 1| ≤ 21 * u64) :
    |c * Δx - (c * Δx * nx + c * Δy * ny) * nx| ≤ 26000 * u64 ∧
      |c * Δy - (c * Δx * nx + c * Δy * ny) * ny| ≤ 26000 * u64 := by
  have px := parallel_core hη0 hcη hd0 hd10 hu hdx hnx
  have py := parallel_core hη0 hcη hd0 hd10 hw hdy hny
  have cross : |c * Δx * ny - c * Δy * nx| ≤ 4185 * u64 := by
    have hid : c * Δx * ny - c * Δy * nx
        = -(c * (d * nx - Δx) * ny) + c * (d * ny - Δy) * nx := by ring
    rw [hid]
    have a1 := abs_le.mp (abs_mul_le_of px bny)
    have a2 := abs_le.mp (abs_mul_le_of py bnx)
    unfold u64 at *
    rw [abs_le]
    constructor <;> linarith
  have c1 := abs_le.mp (abs_mul_le_of hu hN)
  have c2 := abs_le.mp (abs_mul_le_of hw hN)
  have c3 := abs_le.mp (abs_mul_le_of bny cross)
  have c4 := abs_le.mp (abs_mul_le_of bnx cross)
  constructor
  · have hid : c * Δx - (c * Δx * nx + c * Δy * ny) * nx
        = -(c * Δx * (nx * nx + ny * ny - 1)) + ny * (c * Δx * ny - c * Δy * nx) := by ring
    rw [hid]
    unfold u64 at *
    rw [abs_le]
    constructor <;> linarith
  · have hid : c * Δy - (c * Δx * nx + c * Δy * ny) * ny
        = -(c * Δy * (nx * nx + ny * ny - 1)) - nx * (c * Δx * ny - c * Δy * nx) := by ring
    rw [hid]
    unfold u64 at *
    rw [abs_le]
    constructor <;> linarith

/-! ## One float64 resolution of a pair -/

theorem F64.app_fin (f : ℚ → ℚ) (a : ℚ) : F64.app f (F64.fin a) = F64.fin (f a) := rfl

theorem F64.app_nan (f : ℚ → ℚ) : F64.app f F64.nan = F64.nan := rfl

theorem round64_rnd (x : ℚ) : Rnd eta64 (round64 x) x := round64_err x

theorem round64_minDist : round64 (2.0 * ((particleRadius : Int) : ℚ)) = 10 := by decide!

theorem round64_hundred : round64 (10 * 10) = 100 := by decide!

theorem round64_half : round64 0.5 = 1 / 2 := by decide!

/-- The positions written by one float64 resolution of a pair with numeric positions:
named step by step as the loop body computes them. -/
theorem resolvePair64_positions (p1 p2 : Particle ℚ) (x1 y1 x2 y2 : ℚ)
    (h1x : p1.X = F64.fin x1) (h1y : p1.Y = F64.fin y1)
    (h2x : p2.X = F64.fin x2) (h2y : p2.Y = F64.fin y2) :
    let dx := round64 (x1 - x2)
    let dy := round64 (y1 - y2)
    let D := round64 (round64 (dx * dx) + round64 (dy * dy))
    let d := sqrt64 D
    let mx := round64 (round64 (round64 (dx / d) * round64 (10 - d)) * (1 / 2))
    let my := round64 (round64 (round64 (dy / d) * round64 (10 - d)) * (1 / 2))
    (D < 100 → 0 < D → 0 < d →
      (resolvePair64 p1 p2).1.X = F64.fin (round64 (x1 + mx)) ∧
      (resolvePair64 p1 p2).1.Y = F64.fin (round64 (y1 + my)) ∧
      (resolvePair64 p1 p2).2.X = F64.fin (round64 (x2 - mx)) ∧
      (resolvePair64 p1 p2).2.Y = F64.fin (round64 (y2 - my))) ∧
    (¬ D < 100 → resolvePair64 p1 p2 = (p1, p2)) := by
  intro dx dy D d mx my
  have hm : F64.app round64 (F64.fin 2.0 * F64.ofInt particleRadius) = F64.fin 10 := by
    simp only [F64.ofInt, F64.fin_mul, F64.app_fin, round64_minDist]
  constructor
  · intro hlt hD0 hd0
    have hdne : d ≠ 0 := ne_of_gt hd0
    simp only [resolvePair64, resolvePairR, h1x, h1y, h2x, h2y, hm, F64.app_fin, F64.fin_sub,
      F64.fin_mul, F64.fin_add, F64.lt_fin, F64.sqrt, round64_hundred, round64_half]
    simp only [dx, dy, D, d, mx, my] at hlt hD0 hdne ⊢
    simp only [hlt, decide_True, if_true, not_lt.mpr (le_of_lt hD0), if_false,
      F64.fin_div _ _ hdne, F64.app_fin, F64.fin_mul, F64.fin_sub, F64.fin_add]
    exact ⟨trivial, trivial, trivial, trivial⟩
  · intro hge
    simp only [resolvePair64, resolvePairR, h1x, h1y, h2x, h2y, hm, F64.app_fin, F64.fin_sub,
      F64.fin_mul, F64.fin_add, F64.lt_fin, round64_hundred]
    simp only [dx, dy, D] at hge
    simp only [hge, decide_False]
    rfl

theorem eta64_nonneg : 0 ≤ eta64 := by unfold eta64; positivity

theorem eta64_le_u64 : eta64 ≤ u64 := by unfold eta64 u64; norm_num

theorem eta64_small : 2 ^ 60 * eta64 ≤ u64 := by unfold eta64 u64; norm_num

theorem eta64_sep : 2 ^ 14 * eta64 ≤ u64 * (1 / 2 ^ 1000) := by unfold eta64 u64; norm_num

/-- One float64 resolution of a pair whose coordinates are at most 1040 in magnitude and
whose centres are at least `2^-500` apart: the positions stay numbers, each coordinate
moves by at most 6, and afterwards the squared centre distance is at least
`100 - 2e-11`, whether or not the pair passed the overlap test. -/
theorem resolvePair64_separates (p1 p2 : Particle ℚ) (x1 y1 x2 y2 : ℚ)
    (h1x : p1.X = F64.fin x1) (h1y : p1.Y = F64.fin y1)
    (h2x : p2.X = F64.fin x2) (h2y : p2.Y = F64.fin y2)
    (hx1 : |x1| ≤ 1040) (hy1 : |y1| ≤ 1040) (hx2 : |x2| ≤ 1040) (hy2 : |y2| ≤ 1040)
    (hsep : 1 / 2 ^ 1000 ≤ (x1 - x2) * (x1 - x2) + (y1 - y2) * (y1 - y2)) :
    ∃ X1 Y1 X2 Y2 : ℚ,
      (resolvePair64 p1 p2).1.X = F64.fin X1 ∧ (resolvePair64 p1 p2).1.Y = F64.fin Y1 ∧
      (resolvePair64 p1 p2).2.X = F64.fin X2 ∧ (resolvePair64 p1 p2).2.Y = F64.fin Y2 ∧
      |X1 - x1| ≤ 6 ∧ |Y1 - y1| ≤ 6 ∧ |X2 - x2| ≤ 6 ∧ |Y2 - y2| ≤ 6 ∧
      100 - 2 / 10 ^ 11 ≤ (X1 - X2) * (X1 - X2) + (Y1 - Y2) * (Y1 - Y2) := by
  obtain ⟨hpass, hskip⟩ := resolvePair64_positions p1 p2 x1 y1 x2 y2 h1x h1y h2x h2y
  have hbx : |x1 - x2| ≤ 2080 := by have := abs_sub x1 x2; linarith
  have hby : |y1 - y2| ≤ 2080 := by have := abs_sub y1 y2; linarith
  by_cases hlt : round64 (round64 (round64 (x1 - x2) * round64 (x1 - x2)) +
      round64 (round64 (y1 - y2) * round64 (y1 - y2))) < 100
  · obtain ⟨_, _, hD0⟩ := D_pos eta64_nonneg (by positivity) eta64_sep hbx hby hsep
      (round64_rnd _) (round64_rnd _) (round64_rnd _) (round64_rnd _) (round64_rnd _)
    obtain ⟨hd0, hd⟩ := sqrt64_spec _ hD0
    obtain ⟨e1, e2, e3, e4⟩ := hpass hlt hD0 hd0
    obtain ⟨hfar, m1, m2, m3, m4⟩ := sep_core eta64_nonneg eta64_le_u64 (by positivity) eta64_sep
      hx1 hy1 hx2 hy2 hsep (round64_rnd _) (round64_rnd _) (round64_rnd _) (round64_rnd _)
      (round64_rnd _) hlt hd0 hd (round64_rnd _) (round64_rnd _) (round64_rnd _)
      (round64_rnd _) (round64_rnd _) (round64_rnd _) (round64_rnd _)
      (round64_rnd _) (round64_rnd _) (round64_rnd _) (round64_rnd _)
    exact ⟨_, _, _, _, e1, e2, e3, e4, m1, m3, m2, m4, hfar⟩
  · have hsame := hskip hlt
    have hfar := far_of_not_lt eta64_nonneg eta64_small hbx hby
      (round64_rnd _) (round64_rnd _) (round64_rnd _) (round64_rnd _) (round64_rnd _)
      (not_lt.mp hlt)
    refine ⟨x1, y1, x2, y2, ?_, ?_, ?_, ?_, by simp, by simp, by simp, by simp, hfar⟩
    · rw [hsame]; exact h1x
    · rw [hsame]; exact h1y
    · rw [hsame]; exact h2x
    · rw [hsame]; exact h2y

/-- One pass over a store of two particles resolves the single pair `(0, 1)`. -/
theorem collisionPassWith_two (resolve : Particle ℚ → Particle ℚ → Particle ℚ × Particle ℚ)
    (a b : Particle ℚ) :
    collisionPassWith resolve [a, b] = [(resolve a b).1, (resolve a b).2] := rfl

/-- The three passes, unfolded. -/
theorem collisionsWith_eq (resolve : Particle ℚ → Particle ℚ → Particle ℚ × Particle ℚ)
    (ps : List (Particle ℚ)) :
    collisionsWith resolve ps =
      collisionPassWith resolve (collisionPassWith resolve (collisionPassWith resolve ps)) := rfl

/-- C2, as amended. A store of exactly two particles whose coordinates are at most 1024
in magnitude and whose centres are at least `2^-500` apart: after the three collision
passes in float64 arithmetic both positions are numbers and the centre distance is at
least `2 * particleRadius - 1e-11`. -/
theorem collisions64_two_separate (p1 p2 : Particle ℚ) (x1 y1 x2 y2 : ℚ)
    (h1x : p1.X = F64.fin x1) (h1y : p1.Y = F64.fin y1)
    (h2x : p2.X = F64.fin x2) (h2y : p2.Y = F64.fin y2)
    (hx1 : |x1| ≤ 1024) (hy1 : |y1| ≤ 1024) (hx2 : |x2| ≤ 1024) (hy2 : |y2| ≤ 1024)
    (hsep : 1 / 2 ^ 1000 ≤ (x1 - x2) * (x1 - x2) + (y1 - y2) * (y1 - y2)) :
    ∃ (q1 q2 : Particle ℚ) (a1 b1 a2 b2 : ℚ),
      collisions64 [p1, p2] = [q1, q2] ∧
      q1.X = F64.fin a1 ∧ q1.Y = F64.fin b1 ∧ q2.X = F64.fin a2 ∧ q2.Y = F64.fin b2 ∧
      (10 - 1 / 10 ^ 11) * (10 - 1 / 10 ^ 11)
        ≤ (a1 - a2) * (a1 - a2) + (b1 - b2) * (b1 - b2) := by
  obtain ⟨A1, B1, A2, B2, e1, e2, e3, e4, m1, m2, m3, m4, hf1⟩ :=
    resolvePair64_separates p1 p2 x1 y1 x2 y2 h1x h1y h2x h2y
      (by linarith) (by linarith) (by linarith) (by linarith) hsep
  have bA1 : |A1| ≤ 1030 := by have := abs_sub_abs_le_abs_sub A1 x1; linarith
  have bB1 : |B1| ≤ 1030 := by have := abs_sub_abs_le_abs_sub B1 y1; linarith
  have bA2 : |A2| ≤ 1030 := by have := abs_sub_abs_le_abs_sub A2 x2; linarith
  have bB2 : |B2| ≤ 1030 := by have := abs_sub_abs_le_abs_sub B2 y2; linarith
  obtain ⟨C1, D1, C2, D2, f1, f2, f3, f4, n1, n2, n3, n4, hf2⟩ :=
    resolvePair64_separates _ _ A1 B1 A2 B2 e1 e2 e3 e4
      (by linarith) (by linarith) (by linarith) (by linarith)
      (le_trans (by norm_num) hf1)
  have bC1 : |C1| ≤ 1036 := by have := abs_sub_abs_le_abs_sub C1 A1; linarith
  have bD1 : |D1| ≤ 1036 := by have := abs_sub_abs_le_abs_sub D1 B1; linarith
  have bC2 : |C2| ≤ 1036 := by have := abs_sub_abs_le_abs_sub C2 A2; linarith
  have bD2 : |D2| ≤ 1036 := by have := abs_sub_abs_le_abs_sub D2 B2; linarith
  obtain ⟨E1, F1, E2, F2, g1, g2, g3, g4, _, _, _, _, hf3⟩ :=
    resolvePair64_separates _ _ C1 D1 C2 D2 f1 f2 f3 f4
      (by linarith) (by linarith) (by linarith) (by linarith)
      (le_trans (by norm_num) hf2)
  refine ⟨_, _, E1, F1, E2, F2, ?_, g1, g2, g3, g4, le_trans (by norm_num) hf3⟩
  rw [collisions64, collisionsWith_eq, collisionPassWith_two, collisionPassWith_two,
    collisionPassWith_two]

/-! ## Velocity resolution in float64 arithmetic -/

theorem round64_two : round64 2 = 2 := by decide!

/-- The velocities written by one float64 resolution of a pair that passes the overlap
test, for a restitution `e0`, named step by step as the loop body computes them. -/
theorem resolvePairR64_velocities (e0 x1 y1 u1 w1 x2 y2 u2 w2 : ℚ) (k1 k2 : Nat × Nat × Nat)
    (hlt : distSq64 x1 y1 x2 y2 < 100) (hD0 : 0 < distSq64 x1 y1 x2 y2)
    (hd0 : 0 < sqrt64 (distSq64 x1 y1 x2 y2)) :
    let n := normal64 x1 y1 x2 y2
    let a1 := round64 (round64 (u1 * n.1) + round64 (w1 * n.2))
    let a2 := round64 (round64 (u2 * n.1) + round64 (w2 * n.2))
    let vn1 := round64 (round64 (round64 (a1 * round64 (1 - e0)) +
      round64 (a2 * round64 (1 + e0))) / 2)
    let vn2 := round64 (round64 (round64 (a2 * round64 (1 - e0)) +
      round64 (a1 * round64 (1 + e0))) / 2)
    let r := resolvePairR round64 sqrt64 e0
      (Particle.mk (F64.fin x1) (F64.fin y1) (F64.fin u1) (F64.fin w1) k1)
      (Particle.mk (F64.fin x2) (F64.fin y2) (F64.fin u2) (F64.fin w2) k2)
    r.1.VelX = F64.fin (round64 (u1 + round64 (round64 (vn1 - a1) * n.1))) ∧
    r.1.VelY = F64.fin (round64 (w1 + round64 (round64 (vn1 - a1) * n.2))) ∧
    r.2.VelX = F64.fin (round64 (u2 + round64 (round64 (vn2 - a2) * n.1))) ∧
    r.2.VelY = F64.fin (round64 (w2 + round64 (round64 (vn2 - a2) * n.2))) := by
  intro n a1 a2 vn1 vn2 r
  have hm : F64.app round64 (F64.fin 2.0 * F64.ofInt particleRadius) = F64.fin 10 := by
    simp only [F64.ofInt, F64.fin_mul, F64.app_fin, round64_minDist]
  have hdne : sqrt64 (distSq64 x1 y1 x2 y2) ≠ 0 := ne_of_gt hd0
  have h2 : (2 : ℚ) ≠ 0 := two_ne_zero
  simp only [distSq64] at hlt hD0 hdne
  simp only [r, vn1, vn2, a1, a2, n, normal64, distSq64, resolvePairR, hm, F64.app_fin,
    F64.fin_sub, F64.fin_mul, F64.fin_add, F64.lt_fin, F64.sqrt, round64_hundred, round64_two,
    hlt, decide_True, if_true, not_lt.mpr (le_of_lt hD0), if_false, F64.fin_div _ _ hdne,
    F64.fin_div _ _ h2]
  exact ⟨trivial, trivial, trivial, trivial⟩

/-- For a pair with coordinates at most 1040 in magnitude and centres at least `2^-500`
apart: the computed squared distance and the
computed distance are positive, and the computed normal is a unit vector up to
rounding. -/
theorem normal64_unit (x1 y1 x2 y2 : ℚ)
    (hx1 : |x1| ≤ 1040) (hy1 : |y1| ≤ 1040) (hx2 : |x2| ≤ 1040) (hy2 : |y2| ≤ 1040)
    (hsep : 1 / 2 ^ 1000 ≤ (x1 - x2) * (x1 - x2) + (y1 - y2) * (y1 - y2)) :
    0 < distSq64 x1 y1 x2 y2 ∧ 0 < sqrt64 (distSq64 x1 y1 x2 y2) ∧
      |(normal64 x1 y1 x2 y2).1| ≤ 102 / 100 ∧ |(normal64 x1 y1 x2 y2).2| ≤ 102 / 100 ∧
      |(normal64 x1 y1 x2 y2).1 * (normal64 x1 y1 x2 y2).1
        + (normal64 x1 y1 x2 y2).2 * (normal64 x1 y1 x2 y2).2 - 1| ≤ 21 * u64 := by
  have hbx : |x1 - x2| ≤ 2080 := by have := abs_sub x1 x2; linarith
  have hby : |y1 - y2| ≤ 2080 := by have := abs_sub y1 y2; linarith
  obtain ⟨hS, hηS, hD0⟩ := D_pos eta64_nonneg (by positivity) eta64_sep hbx hby hsep
    (round64_rnd _) (round64_rnd _) (round64_rnd _) (round64_rnd _) (round64_rnd _)
  have hD0' : 0 < distSq64 x1 y1 x2 y2 := hD0
  obtain ⟨hd0, hd⟩ := sqrt64_spec _ hD0'
  obtain ⟨_, hlo, hhi⟩ := stepC hS hηS
    (stepA eta64_nonneg (round64_rnd _) (round64_rnd _) (round64_rnd _)) hd
  have hqx := stepD hd0 (by linarith [mul_self_nonneg (round64 (y1 - y2))] :
    round64 (x1 - x2) * round64 (x1 - x2) ≤
      round64 (x1 - x2) * round64 (x1 - x2) + round64 (y1 - y2) * round64 (y1 - y2)) hlo
  have hqy := stepD hd0 (by linarith [mul_self_nonneg (round64 (x1 - x2))] :
    round64 (y1 - y2) * round64 (y1 - y2) ≤
      round64 (x1 - x2) * round64 (x1 - x2) + round64 (y1 - y2) * round64 (y1 - y2)) hlo
  obtain ⟨b1, b2, hN⟩ := normal_core eta64_le_u64 hd0 rfl hlo hhi hqx hqy
    (round64_rnd _) (round64_rnd _)
  exact ⟨hD0', hd0, b1, b2, hN⟩

/-- The velocities after one float64 resolution with a restitution `e0` between 0 and 1,
for velocity components at most 1024 in magnitude: each written component is within
`43000 * u64` of the exact update `v + (ideal - vn) * n` along the computed normal `n`,
where `vn` is the exact normal component and `ideal` the restitution-weighted average. -/
theorem resolvePairR64_update (e0 x1 y1 u1 w1 x2 y2 u2 w2 : ℚ) (k1 k2 : Nat × Nat × Nat)
    (he0 : 0 ≤ e0) (he1 : e0 ≤ 1)
    (hx1 : |x1| ≤ 1040) (hy1 : |y1| ≤ 1040) (hx2 : |x2| ≤ 1040) (hy2 : |y2| ≤ 1040)
    (hu1 : |u1| ≤ 1024) (hw1 : |w1| ≤ 1024) (hu2 : |u2| ≤ 1024) (hw2 : |w2| ≤ 1024)
    (hsep : 1 / 2 ^ 1000 ≤ (x1 - x2) * (x1 - x2) + (y1 - y2) * (y1 - y2))
    (hlt : distSq64 x1 y1 x2 y2 < 100) :
    let n := normal64 x1 y1 x2 y2
    let v1n := u1 * n.1 + w1 * n.2
    let v2n := u2 * n.1 + w2 * n.2
    let i1 := (v1n * (1 - e0) + v2n * (1 + e0)) / 2
    let i2 := (v2n * (1 - e0) + v1n * (1 + e0)) / 2
    let r := resolvePairR round64 sqrt64 e0
      (Particle.mk (F64.fin x1) (F64.fin y1) (F64.fin u1) (F64.fin w1) k1)
      (Particle.mk (F64.fin x2) (F64.fin y2) (F64.fin u2) (F64.fin w2) k2)
    ∃ U1 W1 U2 W2 : ℚ,
      r.1.VelX = F64.fin U1 ∧ r.1.VelY = F64.fin W1 ∧
      r.2.VelX = F64.fin U2 ∧ r.2.VelY = F64.fin W2 ∧
      |U1 - (u1 + (i1 - v1n) * n.1)| ≤ 43000 * u64 ∧
      |W1 - (w1 + (i1 - v1n) * n.2)| ≤ 43000 * u64 ∧
      |U2 - (u2 + (i2 - v2n) * n.1)| ≤ 43000 * u64 ∧
      |W2 - (w2 + (i2 - v2n) * n.2)| ≤ 43000 * u64 ∧
      |i1 - v1n| ≤ 5224 ∧ |i2 - v2n| ≤ 5224 := by
  intro n v1n v2n i1 i2 r
  obtain ⟨hD0, hd0, bn1, bn2, _⟩ := normal64_unit x1 y1 x2 y2 hx1 hy1 hx2 hy2 hsep
  obtain ⟨e1, e2, e3, e4⟩ :=
    resolvePairR64_velocities e0 x1 y1 u1 w1 x2 y2 u2 w2 k1 k2 hlt hD0 hd0
  have hs := eta64_le_u64
  obtain ⟨A1, B1, V1⟩ := dot_core hs bn1 bn2 hu1 hw1 (round64_rnd _) (round64_rnd _)
    (round64_rnd _)
  obtain ⟨A2, B2, V2⟩ := dot_core hs bn1 bn2 hu2 hw2 (round64_rnd _) (round64_rnd _)
    (round64_rnd _)
  obtain ⟨N1, M1, I1⟩ := newspeed_core hs he0 he1 (round64_rnd _) (round64_rnd _)
    A1 B1 V1 A2 B2 V2 (round64_rnd _) (round64_rnd _) (round64_rnd _) (round64_rnd _)
  obtain ⟨N2, M2, I2⟩ := newspeed_core hs he0 he1 (round64_rnd _) (round64_rnd _)
    A2 B2 V2 A1 B1 V1 (round64_rnd _) (round64_rnd _) (round64_rnd _) (round64_rnd _)
  have q1 := update_core hs bn1 hu1 A1 B1 N1 M1 (round64_rnd _) (round64_rnd _) (round64_rnd _)
  have q2 := update_core hs bn2 hw1 A1 B1 N1 M1 (round64_rnd _) (round64_rnd _) (round64_rnd _)
  have q3 := update_core hs bn1 hu2 A2 B2 N2 M2 (round64_rnd _) (round64_rnd _) (round64_rnd _)
  have q4 := update_core hs bn2 hw2 A2 B2 N2 M2 (round64_rnd _) (round64_rnd _) (round64_rnd _)
  refine ⟨_, _, _, _, e1, e2, e3, e4, q1, q2, q3, q4, ?_, ?_⟩
  · have := abs_sub_le_of I1 V1
    linarith
  · have := abs_sub_le_of I2 V2
    linarith

/-- C8, as amended. A pair that passes the float64 overlap test, with coordinates and
velocity components at most 1024 in magnitude and centres at least `2^-500` apart.
With `n` the normal the loop computes (from the second particle to the first; a unit
vector up to `1e-14`) and `v1n`, `v2n` the velocity components along `n` before
resolution: after the float64 resolution both velocities are numbers, the first
particle's component along `n` is within `1e-10` of `(v1n*(1-0.9) + v2n*(1+0.9))/2`,
the second's within `1e-10` of `(v2n*(1-0.9) + v1n*(1+0.9))/2`, each particle's
component perpendicular to `n` changes by at most `1e-10`, and the relative normal
velocity is within `1e-10` of `-0.9` times the one before. -/
theorem resolvePair64_velocity_formula (x1 y1 u1 w1 x2 y2 u2 w2 : ℚ) (k1 k2 : Nat × Nat × Nat)
    (hx1 : |x1| ≤ 1024) (hy1 : |y1| ≤ 1024) (hx2 : |x2| ≤ 1024) (hy2 : |y2| ≤ 1024)
    (hu1 : |u1| ≤ 1024) (hw1 : |w1| ≤ 1024) (hu2 : |u2| ≤ 1024) (hw2 : |w2| ≤ 1024)
    (hsep : 1 / 2 ^ 1000 ≤ (x1 - x2) * (x1 - x2) + (y1 - y2) * (y1 - y2))
    (hlt : distSq64 x1 y1 x2 y2 < 100) :
    let n := normal64 x1 y1 x2 y2
    let v1n := u1 * n.1 + w1 * n.2
    let v2n := u2 * n.1 + w2 * n.2
    let r := resolvePair64
      (Particle.mk (F64.fin x1) (F64.fin y1) (F64.fin u1) (F64.fin w1) k1)
      (Particle.mk (F64.fin x2) (F64.fin y2) (F64.fin u2) (F64.fin w2) k2)
    |n.1 * n.1 + n.2 * n.2 - 1| ≤ 1 / 10 ^ 14 ∧
    ∃ U1 W1 U2 W2 : ℚ,
      r.1.VelX = F64.fin U1 ∧ r.1.VelY = F64.fin W1 ∧
      r.2.VelX = F64.fin U2 ∧ r.2.VelY = F64.fin W2 ∧
      |(U1 * n.1 + W1 * n.2) - (v1n * (1 - 0.9) + v2n * (1 + 0.9)) / 2| ≤ 1 / 10 ^ 10 ∧
      |(U2 * n.1 + W2 * n.2) - (v2n * (1 - 0.9) + v1n * (1 + 0.9)) / 2| ≤ 1 / 10 ^ 10 ∧
      |(U1 * (-n.2) + W1 * n.1) - (u1 * (-n.2) + w1 * n.1)| ≤ 1 / 10 ^ 10 ∧
      |(U2 * (-n.2) + W2 * n.1) - (u2 * (-n.2) + w2 * n.1)| ≤ 1 / 10 ^ 10 ∧
      |((U1 * n.1 + W1 * n.2) - (U2 * n.1 + W2 * n.2)) - (-0.9) * (v1n - v2n)| ≤ 1 / 10 ^ 10 := by
  intro n v1n v2n r
  obtain ⟨_, _, bn1, bn2, hN⟩ := normal64_unit x1 y1 x2 y2
    (by linarith) (by linarith) (by linarith) (by linarith) hsep
  obtain ⟨U1, W1, U2, W2, e1, e2, e3, e4, q1, q2, q3, q4, d1, d2⟩ :=
    resolvePairR64_update 0.9 x1 y1 u1 w1 x2 y2 u2 w2 k1 k2 (by norm_num) (by norm_num)
      (by linarith) (by linarith) (by linarith) (by linarith) hu1 hw1 hu2 hw2 hsep hlt
  obtain ⟨al1, ac1⟩ := along_across bn1 bn2 hN rfl d1 q1 q2
  obtain ⟨al2, ac2⟩ := along_across bn1 bn2 hN rfl d2 q3 q4
  have hu : u64 = 1 / 9007199254740992 := by unfold u64; norm_num
  rw [hu] at hN al1 al2 ac1 ac2
  refine ⟨by linarith, U1, W1, U2, W2, e1, e2, e3, e4, by linarith, by linarith,
    by linarith, by linarith, ?_⟩
  have hid : ((U1 * n.1 + W1 * n.2) - (U2 * n.1 + W2 * n.2)) - (-0.9) * (v1n - v2n)
      = ((U1 * n.1 + W1 * n.2) - (v1n * (1 - 0.9) + v2n * (1 + 0.9)) / 2)
        - ((U2 * n.1 + W2 * n.2) - (v2n * (1 - 0.9) + v1n * (1 + 0.9)) / 2) := by ring
  rw [hid]
  have := abs_sub_le_of al1 al2
  linarith

/-- The computed distance of a pair that passes the float64 overlap test is at most
10.01. -/
theorem dist64_le (x1 y1 x2 y2 : ℚ) (hD0 : 0 < distSq64 x1 y1 x2 y2)
    (hlt : distSq64 x1 y1 x2 y2 < 100) : sqrt64 (distSq64 x1 y1 x2 y2) ≤ 1001 / 100 := by
  obtain ⟨hd0, hd⟩ := sqrt64_spec _ hD0
  exact (stepE hd0 hlt hd).1

/-- The arithmetic of the head-on exchange: from the error of each written velocity
component, the error of the components along the normal, and the error of a velocity
along the line of centres against its own normal component. -/
theorem headon_final {u1 w1 n1 n2 U1 W1 U2 W2 : ℚ}
    (q1 : |U1 - (u1 + (((u1 * n1 + w1 * n2) * (1 - 1) + (-u1 * n1 + -w1 * n2) * (1 + 1)) / 2
      - (u1 * n1 + w1 * n2)) * n1)| ≤ 43000 * u64)
    (q2 : |W1 - (w1 + (((u1 * n1 + w1 * n2) * (1 - 1) + (-u1 * n1 + -w1 * n2) * (1 + 1)) / 2
      - (u1 * n1 + w1 * n2)) * n2)| ≤ 43000 * u64)
    (q3 : |U2 - (-u1 + (((-u1 * n1 + -w1 * n2) * (1 - 1) + (u1 * n1 + w1 * n2) * (1 + 1)) / 2
      - (-u1 * n1 + -w1 * n2)) * n1)| ≤ 43000 * u64)
    (q4 : |W2 - (-w1 + (((-u1 * n1 + -w1 * n2) * (1 - 1) + (u1 * n1 + w1 * n2) * (1 + 1)) / 2
      - (-u1 * n1 + -w1 * n2)) * n2)| ≤ 43000 * u64)
    (al1 : |(U1 * n1 + W1 * n2)
      - ((u1 * n1 + w1 * n2) * (1 - 1) + (-u1 * n1 + -w1 * n2) * (1 + 1)) / 2|
        ≤ 5224 * (21 * u64) + 3 * (43000 * u64))
    (al2 : |(U2 * n1 + W2 * n2)
      - ((-u1 * n1 + -w1 * n2) * (1 - 1) + (u1 * n1 + w1 * n2) * (1 + 1)) / 2|
        ≤ 5224 * (21 * u64) + 3 * (43000 * u64))
    (hh1 : |u1 - (u1 * n1 + w1 * n2) * n1| ≤ 26000 * u64)
    (hh2 : |w1 - (u1 * n1 + w1 * n2) * n2| ≤ 26000 * u64) :
    |U1 - (-u1)| ≤ 1 / 10 ^ 10 ∧ |W1 - (-w1)| ≤ 1 / 10 ^ 10 ∧
      |U2 - u1| ≤ 1 / 10 ^ 10 ∧ |W2 - w1| ≤ 1 / 10 ^ 10 ∧
      |((U1 * n1 + W1 * n2) + (U2 * n1 + W2 * n2))
        - ((u1 * n1 + w1 * n2) + ((-u1) * n1 + (-w1) * n2))| ≤ 1 / 10 ^ 10 := by
  have hU : u64 = 1 / 9007199254740992 := by unfold u64; norm_num
  rw [hU] at q1 q2 q3 q4 al1 al2 hh1 hh2
  have a1 := abs_le.mp q1
  have a2 := abs_le.mp q2
  have a3 := abs_le.mp q3
  have a4 := abs_le.mp q4
  have b1 := abs_le.mp hh1
  have b2 := abs_le.mp hh2
  have l1 := abs_le.mp al1
  have l2 := abs_le.mp al2
  refine ⟨?_, ?_, ?_, ?_, ?_⟩ <;> rw [abs_le] <;> constructor <;> linarith

/-- C6, as amended. Two particles that pass the float64 overlap test, with coordinates
at most 1024 in magnitude, centres at least `2^-500` apart, and velocities `c * (dx, dy)`
and `-c * (dx, dy)` of components at most 1024 in magnitude, equal and opposite along
the line of centres: after the float64 resolution with restitution `1` each particle's
velocity is within `1e-10` of the other's former velocity, and the sum of the two
velocity components along the computed normal is within `1e-10` of the sum before. -/
theorem resolvePairR64_head_on_exchange (x1 y1 x2 y2 c : ℚ) (k1 k2 : Nat × Nat × Nat)
    (hx1 : |x1| ≤ 1024) (hy1 : |y1| ≤ 1024) (hx2 : |x2| ≤ 1024) (hy2 : |y2| ≤ 1024)
    (hu : |c * (x1 - x2)| ≤ 1024) (hw : |c * (y1 - y2)| ≤ 1024)
    (hsep : 1 / 2 ^ 1000 ≤ (x1 - x2) * (x1 - x2) + (y1 - y2) * (y1 - y2))
    (hlt : distSq64 x1 y1 x2 y2 < 100) :
    let u1 := c * (x1 - x2)
    let w1 := c * (y1 - y2)
    let n := normal64 x1 y1 x2 y2
    let r := resolvePairR round64 sqrt64 1
      (Particle.mk (F64.fin x1) (F64.fin y1) (F64.fin u1) (F64.fin w1) k1)
      (Particle.mk (F64.fin x2) (F64.fin y2) (F64.fin (-u1)) (F64.fin (-w1)) k2)
    ∃ U1 W1 U2 W2 : ℚ,
      r.1.VelX = F64.fin U1 ∧ r.1.VelY = F64.fin W1 ∧
      r.2.VelX = F64.fin U2 ∧ r.2.VelY = F64.fin W2 ∧
      |U1 - (-u1)| ≤ 1 / 10 ^ 10 ∧ |W1 - (-w1)| ≤ 1 / 10 ^ 10 ∧
      |U2 - u1| ≤ 1 / 10 ^ 10 ∧ |W2 - w1| ≤ 1 / 10 ^ 10 ∧
      |((U1 * n.1 + W1 * n.2) + (U2 * n.1 + W2 * n.2))
        - ((u1 * n.1 + w1 * n.2) + ((-u1) * n.1 + (-w1) * n.2))| ≤ 1 / 10 ^ 10 := by
  intro u1 w1 n r
  have hx1' : |x1| ≤ 1040 := by linarith
  have hy1' : |y1| ≤ 1040 := by linarith
  have hx2' : |x2| ≤ 1040 := by linarith
  have hy2' : |y2| ≤ 1040 := by linarith
  obtain ⟨hD0, hd0, bn1, bn2, hN⟩ := normal64_unit x1 y1 x2 y2 hx1' hy1' hx2' hy2' hsep
  have hd10 := dist64_le x1 y1 x2 y2 hD0 hlt
  have hu2 : |-u1| ≤ 1024 := by rw [abs_neg]; exact hu
  have hw2 : |-w1| ≤ 1024 := by rw [abs_neg]; exact hw
  obtain ⟨U1, W1, U2, W2, e1, e2, e3, e4, q1, q2, q3, q4, d1, d2⟩ :=
    resolvePairR64_update 1 x1 y1 u1 w1 x2 y2 (-u1) (-w1) k1 k2 (by norm_num) (by norm_num)
      hx1' hy1' hx2' hy2' hu hw hu2 hw2 hsep hlt
  obtain ⟨al1, _⟩ := along_across bn1 bn2 hN rfl d1 q1 q2
  obtain ⟨al2, _⟩ := along_across bn1 bn2 hN rfl d2 q3 q4
  have hc : |c| * eta64 ≤ u64 / 2 ^ 20 := by
    have h1 := coeff_bound hsep hu hw
    have h2 := mul_le_mul_of_nonneg_right h1 eta64_nonneg
    have h3 : (2 : ℚ) ^ 511 * eta64 ≤ u64 / 2 ^ 20 := by unfold eta64 u64; norm_num
    linarith
  have hnx : Rnd eta64 (normal64 x1 y1 x2 y2).1
      (round64 (x1 - x2) / sqrt64 (distSq64 x1 y1 x2 y2)) := round64_rnd _
  have hny : Rnd eta64 (normal64 x1 y1 x2 y2).2
      (round64 (y1 - y2) / sqrt64 (distSq64 x1 y1 x2 y2)) := round64_rnd _
  obtain ⟨hh1, hh2⟩ := headon_core eta64_nonneg hc hd0 hd10 hu hw
    (round64_rnd _) (round64_rnd _) hnx hny bn1 bn2 hN
  exact ⟨U1, W1, U2, W2, e1, e2, e3, e4, headon_final q1 q2 q3 q4 al1 al2 hh1 hh2⟩

/-! ## Concrete float64 evaluations -/

/-- C2, witness: two particles at rest at `(10, 10)` and `(11, 11)`. -/
theorem collisions64_two_separate_witness :
    ∃ (q1 q2 : Particle ℚ) (a1 b1 a2 b2 : ℚ),
      collisions64 [restingAt 10 10, restingAt 11 11] = [q1, q2] ∧
      q1.X = F64.fin a1 ∧ q1.Y = F64.fin b1 ∧ q2.X = F64.fin a2 ∧ q2.Y = F64.fin b2 ∧
      (10 - 1 / 10 ^ 11) * (10 - 1 / 10 ^ 11)
        ≤ (a1 - a2) * (a1 - a2) + (b1 - b2) * (b1 - b2) :=
  collisions64_two_separate (restingAt 10 10) (restingAt 11 11) 10 10 11 11 rfl rfl rfl rfl
    (by norm_num [abs_le]) (by norm_num [abs_le]) (by norm_num [abs_le]) (by norm_num [abs_le])
    (by norm_num)

/-- C2, counterexample. Two particles at rest at `(10, 10)` and `(11, 11)`, distinct
centres less than 10 apart: after the three collision passes in float64 arithmetic they
are at `6.964466094067263` and `14.035533905932738` on both axes, their squared centre
distance is below `10 * 10`, and the loop's own overlap test still passes. -/
theorem collisions64_falls_short :
    (collisions64 [restingAt 10 10, restingAt 11 11]).map (fun p => (p.X, p.Y))
      = [(F64.fin (7841291726518945 / 1125899906842624),
          F64.fin (7841291726518945 / 1125899906842624)),
         (F64.fin (493831447411755 / 35184372088832),
          F64.fin (493831447411755 / 35184372088832))] ∧
    ((7841291726518945 / 1125899906842624 : ℚ) - 493831447411755 / 35184372088832)
        * (7841291726518945 / 1125899906842624 - 493831447411755 / 35184372088832)
      + ((7841291726518945 / 1125899906842624 : ℚ) - 493831447411755 / 35184372088832)
        * (7841291726518945 / 1125899906842624 - 493831447411755 / 35184372088832)
      < 10 * 10 ∧
    distSq64 (7841291726518945 / 1125899906842624) (7841291726518945 / 1125899906842624)
      (493831447411755 / 35184372088832) (493831447411755 / 35184372088832) < 100 := by
  decide!

/-- The specification's scenario, A at `(10, 10)` and B at `(19, 10)` at rest: in float64
arithmetic the three passes put them at `(9.5, 10)` and `(19.5, 10)`, exactly
`2 * particleRadius` apart. -/
theorem collisions64_scenario :
    (collisions64 [restingAt 10 10, restingAt 19 10]).map (fun p => (p.X, p.Y))
      = [(F64.fin 9.5, F64.fin 10), (F64.fin 19.5, F64.fin 10)] := by
  decide!

/-- C8, witness: A at `(10, 10)` with velocity `(1, 2)` and B at `(13, 14)` with velocity
`(-1, 0.5)`; the computed normal is a unit vector up to `1e-14`. -/
theorem resolvePair64_velocity_formula_witness :
    distSq64 10 10 13 14 < 100 ∧
    |(normal64 10 10 13 14).1 * (normal64 10 10 13 14).1
      + (normal64 10 10 13 14).2 * (normal64 10 10 13 14).2 - 1| ≤ 1 / 10 ^ 14 :=
  have h : distSq64 10 10 13 14 < 100 := by decide!
  ⟨h, (resolvePair64_velocity_formula 10 10 1 2 13 14 (-1) 0.5 (50, 50, 200) (50, 50, 200)
    (by norm_num [abs_le]) (by norm_num [abs_le]) (by norm_num [abs_le]) (by norm_num [abs_le])
    (by norm_num [abs_le]) (by norm_num [abs_le]) (by norm_num [abs_le]) (by norm_num [abs_le])
    (by norm_num) h).1⟩

/-- C8, counterexample. A at `(10, 10)` with velocity `(1, 2)` and B at `(13, 14)` with
velocity `(-1, 0.5)`: in float64 arithmetic the computed normal is the pair of doubles
nearest `(-0.6, -0.8)`, which is not a unit vector; after resolution the component of
A's velocity along it is not `(v1n*(1-0.9) + v2n*(1+0.9))/2`, and the component of A's
velocity perpendicular to it has changed. -/
theorem resolvePair64_formula_inexact :
    normal64 10 10 13 14
      = (-5404319552844595 / 9007199254740992, -3602879701896397 / 4503599627370496) ∧
    ((-5404319552844595 / 9007199254740992 : ℚ) * (-5404319552844595 / 9007199254740992)
      + (-3602879701896397 / 4503599627370496) * (-3602879701896397 / 4503599627370496) ≠ 1) ∧
    (resolvePair64
        (Particle.mk (F64.fin 10) (F64.fin 10) (F64.fin 1) (F64.fin 2) (50, 50, 200))
        (Particle.mk (F64.fin 13) (F64.fin 14) (F64.fin (-1)) (F64.fin 0.5) (50, 50, 200))).1.VelX
      = F64.fin (-1657324662872343 / 4503599627370496) ∧
    (resolvePair64
        (Particle.mk (F64.fin 10) (F64.fin 10) (F64.fin 1) (F64.fin 2) (50, 50, 200))
        (Particle.mk (F64.fin 13) (F64.fin 14) (F64.fin (-1)) (F64.fin 0.5) (50, 50, 200))).1.VelY
      = F64.fin (396316767208603 / 2251799813685248) ∧
    ((-1657324662872343 / 4503599627370496 : ℚ) * (-5404319552844595 / 9007199254740992)
        + 396316767208603 / 2251799813685248 * (-3602879701896397 / 4503599627370496)
      ≠ ((1 * (-5404319552844595 / 9007199254740992)
            + 2 * (-3602879701896397 / 4503599627370496)) * (1 - 0.9)
          + ((-1) * (-5404319552844595 / 9007199254740992)
            + 0.5 * (-3602879701896397 / 4503599627370496)) * (1 + 0.9)) / 2) ∧
    ((-1657324662872343 / 4503599627370496 : ℚ) * -(-3602879701896397 / 4503599627370496)
        + 396316767208603 / 2251799813685248 * (-5404319552844595 / 9007199254740992)
      ≠ 1 * -(-3602879701896397 / 4503599627370496)
        + 2 * (-5404319552844595 / 9007199254740992)) := by
  decide!

/-- C6, witness: A at `(10, 10)` with velocity `(1, 1)` and B at `(11, 11)` with
velocity `(-1, -1)`, approaching each other along the line of centres (`c = -1`). -/
theorem resolvePairR64_head_on_exchange_witness :
    distSq64 10 10 11 11 < 100 ∧
    (let u1 : ℚ := (-1) * (10 - 11)
     let w1 : ℚ := (-1) * (10 - 11)
     let n := normal64 10 10 11 11
     let r := resolvePairR round64 sqrt64 1
       (Particle.mk (F64.fin 10) (F64.fin 10) (F64.fin u1) (F64.fin w1) (50, 50, 200))
       (Particle.mk (F64.fin 11) (F64.fin 11) (F64.fin (-u1)) (F64.fin (-w1)) (50, 50, 200))
     ∃ U1 W1 U2 W2 : ℚ,
       r.1.VelX = F64.fin U1 ∧ r.1.VelY = F64.fin W1 ∧
       r.2.VelX = F64.fin U2 ∧ r.2.VelY = F64.fin W2 ∧
       |U1 - (-u1)| ≤ 1 / 10 ^ 10 ∧ |W1 - (-w1)| ≤ 1 / 10 ^ 10 ∧
       |U2 - u1| ≤ 1 / 10 ^ 10 ∧ |W2 - w1| ≤ 1 / 10 ^ 10 ∧
       |((U1 * n.1 + W1 * n.2) + (U2 * n.1 + W2 * n.2))
         - ((u1 * n.1 + w1 * n.2) + ((-u1) * n.1 + (-w1) * n.2))| ≤ 1 / 10 ^ 10) :=
  have h : distSq64 10 10 11 11 < 100 := by decide!
  ⟨h, resolvePairR64_head_on_exchange 10 10 11 11 (-1) (50, 50, 200) (50, 50, 200)
    (by norm_num [abs_le]) (by norm_num [abs_le]) (by norm_num [abs_le]) (by norm_num [abs_le])
    (by norm_num [abs_le]) (by norm_num [abs_le]) (by norm_num) h⟩

/-- C6, counterexample. A at `(10, 10)` with velocity `(1, 1)` and B at `(11, 11)` with
velocity `(-1, -1)`, approaching head-on with equal and opposite velocities along the
line of centres; the pair passes the overlap test.  The float64 resolution with
restitution `1` leaves A with velocity `(-0.9999999999999996, -0.9999999999999996)`,
which is not B's former velocity `(-1, -1)`, and B with
`(0.9999999999999996, 0.9999999999999996)`, which is not A's former velocity. -/
theorem resolvePairR64_exchange_inexact :
    distSq64 10 10 11 11 < 100 ∧
    (resolvePairR round64 sqrt64 1
        (Particle.mk (F64.fin 10) (F64.fin 10) (F64.fin 1) (F64.fin 1) (50, 50, 200))
        (Particle.mk (F64.fin 11) (F64.fin 11) (F64.fin (-1)) (F64.fin (-1)) (50, 50, 200))).1.VelX
      = F64.fin (-2251799813685247 / 2251799813685248) ∧
    (resolvePairR round64 sqrt64 1
        (Particle.mk (F64.fin 10) (F64.fin 10) (F64.fin 1) (F64.fin 1) (50, 50, 200))
        (Particle.mk (F64.fin 11) (F64.fin 11) (F64.fin (-1)) (F64.fin (-1)) (50, 50, 200))).1.VelY
      = F64.fin (-2251799813685247 / 2251799813685248) ∧
    (resolvePairR round64 sqrt64 1
        (Particle.mk (F64.fin 10) (F64.fin 10) (F64.fin 1) (F64.fin 1) (50, 50, 200))
        (Particle.mk (F64.fin 11) (F64.fin 11) (F64.fin (-1)) (F64.fin (-1)) (50, 50, 200))).2.VelX
      = F64.fin (2251799813685247 / 2251799813685248) ∧
    (-2251799813685247 / 2251799813685248 : ℚ) ≠ -1 ∧
    (2251799813685247 / 2251799813685248 : ℚ) ≠ 1 := by
  decide!

end Float

end ParticleSim
